import Mathlib

/-!
Verification of the checkpoint splitting / reassembly engine
(`CheckpointSplittingService`, `CheckpointSizeService`) of the
flicket-agent-platform repository.

The JavaScript values handled by the service are modelled by an inductive
`Json` type; the canonical serializer `JSON.stringify` is modelled by
`jsonStringify`, producing the UTF-8 byte sequence of the JSON text
(strings are carried as their raw UTF-8 content bytes, so no separate
UTF-8 encoding pass is needed).  Numbers are modelled as integers; the
escaping rules of `JSON.stringify` (quote, backslash, control characters)
are reproduced byte for byte.
-/

namespace CheckpointSplitting

/-- A JSON value as produced/consumed by `JSON.stringify` / `JSON.parse`.
String content and object keys are raw UTF-8 byte lists. -/
inductive Json where
  | null : Json
  | bool : Bool → Json
  | num : Int → Json
  | str : List Nat → Json
  | arr : List Json → Json
  | obj : List (List Nat × Json) → Json


/-- UTF-8 bytes of an ASCII Lean string (used for fixed keys). -/
def strBytes (s : String) : List Nat :=
  s.data.map Char.toNat

/-- Lower-case hex digit byte, as emitted by `JSON.stringify` in
`\u00XX` escapes. -/
def hexDigit (x : Nat) : Nat :=
  if x < 10 then 48 + x else 87 + x

/-- The escape `JSON.stringify` applies to one byte of string content. -/
def escapeByte (b : Nat) : List Nat :=
  if b = 34 then [92, 34]
  else if b = 92 then [92, 92]
  else if b = 8 then [92, 98]
  else if b = 9 then [92, 116]
  else if b = 10 then [92, 110]
  else if b = 12 then [92, 102]
  else if b = 13 then [92, 114]
  else if b < 32 then [92, 117, 48, 48, hexDigit (b / 16), hexDigit (b % 16)]
  else [b]

/-- Escape a whole string body. -/
def escapeBytes : List Nat → List Nat
  | [] => []
  | b :: bs => escapeByte b ++ escapeBytes bs

/-- Little-endian decimal digits, driven by explicit fuel so that the
definition is structural (fuel `n` suffices for input `n`). -/
def natDigitsAux : Nat → Nat → List Nat
  | 0, _ => []
  | _ + 1, 0 => []
  | fuel + 1, n + 1 => (n + 1) % 10 :: natDigitsAux fuel ((n + 1) / 10)

/-- Decimal rendering of a natural number. -/
def natRenderBytes (n : Nat) : List Nat :=
  if n = 0 then [48] else ((natDigitsAux n n).map (fun d => 48 + d)).reverse

/-- Decimal rendering of an integer (as `JSON.stringify` renders an
integral number). -/
def intRenderBytes (n : Int) : List Nat :=
  if n < 0 then 45 :: natRenderBytes n.natAbs else natRenderBytes n.toNat

mutual

/-- `JSON.stringify`, producing the UTF-8 bytes of the JSON text.
Object keys are emitted in insertion order, without whitespace,
exactly as V8 does. -/
def jsonStringify : Json → List Nat
  | .null => [110, 117, 108, 108]
  | .bool true => [116, 114, 117, 101]
  | .bool false => [102, 97, 108, 115, 101]
  | .num n => intRenderBytes n
  | .str s => 34 :: (escapeBytes s ++ [34])
  | .arr es => 91 :: (renderElems es ++ [93])
  | .obj fs => 123 :: (renderFields fs ++ [125])

/-- Comma-separated rendering of array elements. -/
def renderElems : List Json → List Nat
  | [] => []
  | [e] => jsonStringify e
  | e :: e2 :: es => jsonStringify e ++ 44 :: renderElems (e2 :: es)

/-- Comma-separated rendering of object fields. -/
def renderFields : List (List Nat × Json) → List Nat
  | [] => []
  | [(k, v)] => 34 :: (escapeBytes k ++ 34 :: 58 :: jsonStringify v)
  | (k, v) :: f2 :: fs =>
      (34 :: (escapeBytes k ++ 34 :: 58 :: jsonStringify v)) ++ 44 :: renderFields (f2 :: fs)

end

/-- Inverse of `hexDigit` (lower-case hex). -/
def hexVal (c : Nat) : Option Nat :=
  if 48 ≤ c ∧ c ≤ 57 then some (c - 48)
  else if 97 ≤ c ∧ c ≤ 102 then some (c - 97 + 10)
  else none

/-- Parse the body of a JSON string (after the opening quote), undoing
`escapeByte`; returns the content bytes and the remaining input. -/
def parseStrBody : List Nat → Option (List Nat × List Nat)
  | [] => none
  | b :: rest =>
    if b = 34 then some ([], rest)
    else if b = 92 then
      match rest with
      | [] => none
      | e :: rest2 =>
        if e = 34 then (parseStrBody rest2).map (fun sr => (34 :: sr.1, sr.2))
        else if e = 92 then (parseStrBody rest2).map (fun sr => (92 :: sr.1, sr.2))
        else if e = 98 then (parseStrBody rest2).map (fun sr => (8 :: sr.1, sr.2))
        else if e = 116 then (parseStrBody rest2).map (fun sr => (9 :: sr.1, sr.2))
        else if e = 110 then (parseStrBody rest2).map (fun sr => (10 :: sr.1, sr.2))
        else if e = 102 then (parseStrBody rest2).map (fun sr => (12 :: sr.1, sr.2))
        else if e = 114 then (parseStrBody rest2).map (fun sr => (13 :: sr.1, sr.2))
        else if e = 117 then
          match rest2 with
          | 48 :: 48 :: h1 :: h2 :: rest3 =>
            match hexVal h1, hexVal h2 with
            | some x, some y =>
                (parseStrBody rest3).map (fun sr => ((16 * x + y) :: sr.1, sr.2))
            | _, _ => none
          | _ => none
        else none
    else (parseStrBody rest).map (fun sr => (b :: sr.1, sr.2))

/-- Consume a maximal run of decimal digits, accumulating their value. -/
def parseNatAux : List Nat → Nat → Nat × List Nat
  | [], acc => (acc, [])
  | b :: rest, acc =>
    if 48 ≤ b ∧ b ≤ 57 then parseNatAux rest (acc * 10 + (b - 48))
    else (acc, b :: rest)

/-- Parse a decimal natural number (at least one digit). -/
def parseNatNum : List Nat → Option (Nat × List Nat)
  | [] => none
  | b :: rest =>
    if 48 ≤ b ∧ b ≤ 57 then some (parseNatAux rest (b - 48)) else none

/-- Expect a literal byte sequence, returning the remaining input. -/
def expectBytes : List Nat → List Nat → Option (List Nat)
  | [], input => some input
  | p :: ps, input =>
    match input with
    | [] => none
    | b :: rest => if b = p then expectBytes ps rest else none

mutual

/-- `JSON.parse`, modelled on the codomain of `jsonStringify` (no
whitespace, integral numbers), with explicit fuel for structural
recursion; `input.length + 1` fuel always suffices on serializer
output. -/
def parseJsonF : Nat → List Nat → Option (Json × List Nat)
  | 0, _ => none
  | fuel + 1, input =>
    match input with
    | [] => none
    | b :: rest =>
      if b = 110 then (expectBytes [117, 108, 108] rest).map (fun r => (.null, r))
      else if b = 116 then (expectBytes [114, 117, 101] rest).map (fun r => (.bool true, r))
      else if b = 102 then (expectBytes [97, 108, 115, 101] rest).map (fun r => (.bool false, r))
      else if b = 34 then (parseStrBody rest).map (fun sr => (.str sr.1, sr.2))
      else if b = 45 then (parseNatNum rest).map (fun nr => (.num (-(nr.1 : Int)), nr.2))
      else if b = 91 then
        if rest.head? = some 93 then some (.arr [], rest.tail)
        else (parseElemsF fuel rest).map (fun er => (.arr er.1, er.2))
      else if b = 123 then
        if rest.head? = some 125 then some (.obj [], rest.tail)
        else (parseFieldsF fuel rest).map (fun fr => (.obj fr.1, fr.2))
      else if 48 ≤ b ∧ b ≤ 57 then (parseNatNum (b :: rest)).map (fun nr => (.num (nr.1 : Int), nr.2))
      else none

/-- Parse one or more comma-separated array elements up to `]`. -/
def parseElemsF : Nat → List Nat → Option (List Json × List Nat)
  | 0, _ => none
  | fuel + 1, input =>
    match parseJsonF fuel input with
    | none => none
    | some (v, rest) =>
      if rest.head? = some 93 then some ([v], rest.tail)
      else if rest.head? = some 44 then
        match parseElemsF fuel rest.tail with
        | some (vs, r2) => some (v :: vs, r2)
        | none => none
      else none

/-- Parse one or more comma-separated object fields up to `}`. -/
def parseFieldsF : Nat → List Nat → Option (List (List Nat × Json) × List Nat)
  | 0, _ => none
  | fuel + 1, input =>
    match input with
    | 34 :: kin =>
      match parseStrBody kin with
      | none => none
      | some (k, krest) =>
        match krest with
        | 58 :: vin =>
          match parseJsonF fuel vin with
          | none => none
          | some (v, rest) =>
            if rest.head? = some 125 then some ([(k, v)], rest.tail)
            else if rest.head? = some 44 then
              match parseFieldsF fuel rest.tail with
              | some (fs, r2) => some ((k, v) :: fs, r2)
              | none => none
            else none
        | _ => none
    | _ => none

end

/-- `JSON.parse` of a complete document: the whole input must be consumed. -/
def jsonParse (bs : List Nat) : Option Json :=
  match parseJsonF (bs.length + 1) bs with
  | some (v, []) => some v
  | _ => none

/-- Base64 alphabet: the byte of the character for a 6-bit value. -/
def b64Char (i : Nat) : Nat :=
  if i < 26 then 65 + i
  else if i < 52 then 97 + (i - 26)
  else if i < 62 then 48 + (i - 52)
  else if i = 62 then 43
  else 47

/-- Inverse of `b64Char`. -/
def b64Val (c : Nat) : Option Nat :=
  if 65 ≤ c ∧ c ≤ 90 then some (c - 65)
  else if 97 ≤ c ∧ c ≤ 122 then some (c - 97 + 26)
  else if 48 ≤ c ∧ c ≤ 57 then some (c - 48 + 52)
  else if c = 43 then some 62
  else if c = 47 then some 63
  else none

/-- `Buffer.from(bytes).toString("base64")`: standard Base64 with `=`
padding, over byte values. The output is an ASCII character sequence
(one byte per character). -/
def base64Encode : List Nat → List Nat
  | [] => []
  | [b0] => [b64Char (b0 / 4), b64Char (b0 % 4 * 16), 61, 61]
  | [b0, b1] => [b64Char (b0 / 4), b64Char (b0 % 4 * 16 + b1 / 16), b64Char (b1 % 16 * 4), 61]
  | b0 :: b1 :: b2 :: rest =>
      b64Char (b0 / 4) :: b64Char (b0 % 4 * 16 + b1 / 16) ::
      b64Char (b1 % 16 * 4 + b2 / 64) :: b64Char (b2 % 64) :: base64Encode rest

/-- `Buffer.from(str, "base64")`: decode standard Base64 (padding only at
the end of the input). -/
def base64Decode : List Nat → Option (List Nat)
  | [] => some []
  | c1 :: c2 :: c3 :: c4 :: rest =>
    match b64Val c1, b64Val c2 with
    | some v1, some v2 =>
      if c3 = 61 then
        if c4 = 61 ∧ rest = [] then some [v1 * 4 + v2 / 16] else none
      else
        match b64Val c3 with
        | some v3 =>
          if c4 = 61 then
            if rest = [] then some [v1 * 4 + v2 / 16, v2 % 16 * 16 + v3 / 4] else none
          else
            match b64Val c4 with
            | some v4 =>
              (base64Decode rest).map
                (fun bs => (v1 * 4 + v2 / 16) :: (v2 % 16 * 16 + v3 / 4) :: (v3 % 4 * 64 + v4) :: bs)
            | none => none
        | none => none
    | _, _ => none
  | _ => none

/-- `_chunkString` (fuelled; the source's `for (i = 0; i < len; i += k)`
loop, which terminates for `k > 0`; with fuel `s.length` the result is
complete for every `k > 0`). -/
def chunkStringAux : Nat → List Nat → Nat → List (List Nat)
  | 0, _, _ => []
  | fuel + 1, s, k =>
    if s.isEmpty then [] else s.take k :: chunkStringAux fuel (s.drop k) k

/-- `CheckpointSplittingService._chunkString`. -/
def chunkString (s : List Nat) (k : Nat) : List (List Nat) :=
  chunkStringAux s.length s k

/-! ## Data model of the splitting service -/

/-- `SplittingStrategy` (interfaces/checkpoint-splitting.interface). -/
inductive SplittingStrategy where
  | message_level : SplittingStrategy
  | content_level : SplittingStrategy
deriving DecidableEq

/-- `CheckpointSplittingConfig` (config-management/configs/
checkpoint-splitting.config).  The source field `splitRecordPrefix` is
carried here as `splitRecordPfx`. -/
structure CheckpointSplittingConfig where
  enabled : Bool
  maxSizeThreshold : Nat
  strategy : SplittingStrategy
  maxChunkSize : Nat
  enableSizeMonitoring : Bool
  splitRecordPfx : String
  maxRetries : Nat
  operationTimeout : Nat

/-- `SplitRecordMetadata`.  `checksum` is the optional 16-hex-character
digest as a byte list. -/
structure SplitRecordMetadata where
  originalRecordId : String
  totalParts : Nat
  partNumber : Nat
  strategy : SplittingStrategy
  splitTimestamp : String
  checksum : Option (List Nat)
  originalSize : Nat
  partSize : Nat

/-- `MessageSplitData` (its nested `checkpointMetadata` record is
inlined as `totalMessages` / `channelVersion`). -/
structure MessageSplitData where
  channelName : List Nat
  startMessageIndex : Nat
  endMessageIndex : Nat
  messagesData : List Nat
  totalMessages : Nat
  channelVersion : List Nat

/-- `ContentSplitData`. -/
structure ContentSplitData where
  chunkData : List Nat
  encoding : String

/-- `SplitCheckpointRecord`.  `checkpoint` / `metadata` hold the
serialized payload bytes when present. -/
structure SplitCheckpointRecord where
  threadId : String
  recordId : String
  checkpoint : Option (List Nat)
  metadata : Option (List Nat)
  isSplit : Bool
  splitMetadata : Option SplitRecordMetadata
  messageSplitData : Option MessageSplitData
  contentSplitData : Option ContentSplitData

/-- `CheckpointSizeService.calculateChecksum`: SHA-256, lowercase hex,
truncated to the first 16 characters.  The SHA-256 compression function
itself is out of scope here; it is modelled by an executable,
deterministic 64-bit FNV-style digest rendered as 16 lowercase hex
character bytes.  Every claim below depends only on the digest being a
deterministic function of its input with this output shape, never on
the specific hash values. -/
def calculateChecksum (data : List Nat) : List Nat :=
  let digest := data.foldl (fun h b => (h * 16777619 + b) % 2 ^ 64) 14695981039346656037
  (List.range 16).map (fun i => hexDigit (digest / 16 ^ (15 - i) % 16))

/-! ## JavaScript object helpers -/

/-- First-match field lookup (JS objects have unique keys). -/
def lookupField : List (List Nat × Json) → List Nat → Option Json
  | [], _ => none
  | (k, v) :: fs, key => if k = key then some v else lookupField fs key

/-- Property read `j[key]` (only object receivers are modelled). -/
def getField (j : Json) (key : List Nat) : Option Json :=
  match j with
  | .obj fs => lookupField fs key
  | _ => none

/-- Property write on a field list: overwrite in place (JS keeps the
original insertion position), append if absent. -/
def setFieldList : List (List Nat × Json) → List Nat → Json → List (List Nat × Json)
  | [], key, v => [(key, v)]
  | (k, w) :: fs, key, v =>
      if k = key then (k, v) :: fs else (k, w) :: setFieldList fs key v

/-- Property write `j[key] = v` (only object receivers are modelled). -/
def setField (j : Json) (key : List Nat) (v : Json) : Json :=
  match j with
  | .obj fs => .obj (setFieldList fs key v)
  | _ => j

def kChannelValues : List Nat := strBytes "channel_values"
def kMessages : List Nat := strBytes "messages"
def kCheckpoint : List Nat := strBytes "checkpoint"
def kMetadata : List Nat := strBytes "metadata"
def kChannelVersions : List Nat := strBytes "channel_versions"

/-- `Object.entries(checkpoint.channel_values || {})` (a non-object
`channel_values` is not modelled; the service only ever stores object
channel maps). -/
def channelEntries (checkpoint : Json) : List (List Nat × Json) :=
  match getField checkpoint kChannelValues with
  | some (.obj fs) => fs
  | _ => []

/-- The splitter's message-bearing-channel test: the channel value is a
truthy object with a `messages` key holding a non-empty array; returns
those messages.  (`null` is excluded by the source's truthiness guard;
`"messages" in v` is false for arrays and primitives.) -/
def channelMessages (cv : Json) : Option (List Json) :=
  match cv with
  | .obj fs =>
    match lookupField fs kMessages with
    | some (.arr ms) => if ms.isEmpty then none else some ms
    | _ => none
  | _ => none

/-- JS truthiness of a JSON value. -/
def jsTruthy (v : Json) : Bool :=
  match v with
  | .null => false
  | .bool b => b
  | .num n => n != 0
  | .str s => !s.isEmpty
  | _ => true

/-- `String(v)` coercion for the value shapes the service stores
(array `toString` joining is approximated by the empty string; no claim
depends on it). -/
def jsToString (v : Json) : List Nat :=
  match v with
  | .str s => s
  | .num n => intRenderBytes n
  | .bool true => strBytes "true"
  | .bool false => strBytes "false"
  | .null => strBytes "null"
  | .arr _ => []
  | .obj _ => strBytes "[object Object]"

/-- `String(checkpoint.channel_versions?.[channelName] || "1")`. -/
def channelVersionOf (checkpoint : Json) (name : List Nat) : List Nat :=
  match getField checkpoint kChannelVersions with
  | some cvs =>
    match getField cvs name with
    | some v => if jsTruthy v then jsToString v else strBytes "1"
    | none => strBytes "1"
  | none => strBytes "1"

/-! ## Splitting (write path) -/

/-- `partNumber.toString().padStart(4, "0")`. -/
def padStart4 (n : Nat) : String :=
  let s := toString n
  String.mk (List.replicate (4 - s.length) '0') ++ s

/-- `CheckpointSplittingService._generateSplitRecordId` (the source's
`prefix` argument is named `pfx`). -/
def generateSplitRecordId (originalRecordId : String) (partNumber : Nat) (pfx : String) : String :=
  pfx ++ "#" ++ originalRecordId ++ "#part#" ++ padStart4 partNumber

/-- Serialized size of one message, `TextEncoder().encode(JSON.stringify(m)).length`. -/
def messageBytes (m : Json) : Nat := (jsonStringify m).length

/-- Loop body of `_chunkMessages`: greedy accumulation with the current
chunk and its byte size threaded through. -/
def chunkMessagesAux (k : Nat) : List Json → List Json → Nat → List (List Json)
  | [], cur, _ => if cur.isEmpty then [] else [cur]
  | m :: rest, cur, curSize =>
    let s := messageBytes m
    if curSize + s > k ∧ ¬ cur.isEmpty then
      cur :: chunkMessagesAux k rest [m] s
    else
      chunkMessagesAux k rest (cur ++ [m]) (curSize + s)

/-- `CheckpointSplittingService._chunkMessages`. -/
def chunkMessages (messages : List Json) (maxChunkSize : Nat) : List (List Json) :=
  chunkMessagesAux maxChunkSize messages [] 0

/-- One auxiliary record of `_splitMessageLevel` (one message chunk). -/
def mkMessageAuxRecord (cfg : CheckpointSplittingConfig) (threadId recordId timestamp : String)
    (checkpoint : Json) (name : List Nat) (msgs : List Json) (chunksCount : Nat)
    (chunk : List Json) (chunkIndex partNumber : Nat) : SplitCheckpointRecord :=
  let messagesData := jsonStringify (.arr chunk)
  let perChunk := (msgs.length + chunksCount - 1) / chunksCount
  { threadId := threadId
    recordId := generateSplitRecordId recordId partNumber cfg.splitRecordPfx
    checkpoint := none
    metadata := none
    isSplit := true
    splitMetadata := some
      { originalRecordId := recordId
        totalParts := 0
        partNumber := partNumber
        strategy := .message_level
        splitTimestamp := timestamp
        checksum := none
        originalSize := 0
        partSize := messagesData.length }
    messageSplitData := some
      { channelName := name
        startMessageIndex := chunkIndex * perChunk
        endMessageIndex := min ((chunkIndex + 1) * perChunk - 1) (msgs.length - 1)
        messagesData := messagesData
        totalMessages := msgs.length
        channelVersion := channelVersionOf checkpoint name }
    contentSplitData := none }

/-- The auxiliary records of one channel, numbering chunks from
`chunkIndex` and parts from `partNumber`.  `totalParts` and
`originalSize` are zero until backfilled, as in the source. -/
def mkMessageAuxRecords (cfg : CheckpointSplittingConfig) (threadId recordId timestamp : String)
    (checkpoint : Json) (name : List Nat) (msgs : List Json) (chunksCount : Nat) :
    List (List Json) → Nat → Nat → List SplitCheckpointRecord
  | [], _, _ => []
  | c :: cs, chunkIndex, partNumber =>
      mkMessageAuxRecord cfg threadId recordId timestamp checkpoint name msgs chunksCount
        c chunkIndex partNumber ::
      mkMessageAuxRecords cfg threadId recordId timestamp checkpoint name msgs chunksCount
        cs (chunkIndex + 1) (partNumber + 1)

/-- The channel loop of `_splitMessageLevel`: returns the auxiliary
records, the `cleanedChannelValues` entry list, and the final part
counter. -/
def processChannels (cfg : CheckpointSplittingConfig) (threadId recordId timestamp : String)
    (checkpoint : Json) :
    List (List Nat × Json) → Nat →
    List SplitCheckpointRecord × List (List Nat × Json) × Nat
  | [], partNumber => ([], [], partNumber)
  | (name, cv) :: rest, partNumber =>
    match channelMessages cv with
    | some ms =>
      let chunks := chunkMessages ms cfg.maxChunkSize
      let recs := mkMessageAuxRecords cfg threadId recordId timestamp checkpoint name ms
        chunks.length chunks 0 partNumber
      let out := processChannels cfg threadId recordId timestamp checkpoint rest
        (partNumber + chunks.length)
      (recs ++ out.1, (name, setField cv kMessages (.arr [])) :: out.2.1, out.2.2)
    | none =>
      let out := processChannels cfg threadId recordId timestamp checkpoint rest partNumber
      (out.1, (name, cv) :: out.2.1, out.2.2)

/-- The `cleanedChannelValues` object built by `_splitMessageLevel`. -/
def cleanedChannelValuesOf (cfg : CheckpointSplittingConfig)
    (threadId recordId timestamp : String) (checkpoint : Json) : List (List Nat × Json) :=
  (processChannels cfg threadId recordId timestamp checkpoint
    (channelEntries checkpoint) 1).2.1

/-- The `primaryCheckpoint` value of `_splitMessageLevel`: a copy of the
checkpoint whose `channel_values` is replaced by the cleaned map. -/
def primaryCheckpointOf (cfg : CheckpointSplittingConfig)
    (threadId recordId timestamp : String) (checkpoint : Json) : Json :=
  setField checkpoint kChannelValues
    (.obj (cleanedChannelValuesOf cfg threadId recordId timestamp checkpoint))

/-- The backfill `forEach` of `_splitMessageLevel`: set `totalParts`
and `originalSize` on a record's descriptor. -/
def backfillSplitMetadata (totalParts originalSize : Nat)
    (r : SplitCheckpointRecord) : SplitCheckpointRecord :=
  { r with splitMetadata := (r.splitMetadata.map
      (fun sm => { sm with totalParts := totalParts, originalSize := originalSize })) }

/-- `CheckpointSplittingService._splitMessageLevel`.  The wall-clock
`new Date().toISOString()` is passed in as `timestamp`. -/
def splitMessageLevel (cfg : CheckpointSplittingConfig) (threadId recordId : String)
    (checkpoint metadata : Json) (timestamp : String) : List SplitCheckpointRecord :=
  let records := (processChannels cfg threadId recordId timestamp checkpoint
    (channelEntries checkpoint) 1).1
  let primaryCheckpoint := primaryCheckpointOf cfg threadId recordId timestamp checkpoint
  let serializedCheckpoint := jsonStringify primaryCheckpoint
  let serializedMetadata := jsonStringify metadata
  let originalSize := (serializedCheckpoint ++ serializedMetadata).length
  let primaryRecord : SplitCheckpointRecord :=
    { threadId := threadId
      recordId := recordId
      checkpoint := some serializedCheckpoint
      metadata := some serializedMetadata
      isSplit := true
      splitMetadata := some
        { originalRecordId := recordId
          totalParts := records.length + 1
          partNumber := 0
          strategy := .message_level
          splitTimestamp := timestamp
          checksum := some (calculateChecksum (serializedCheckpoint ++ serializedMetadata))
          originalSize := originalSize
          partSize := (serializedCheckpoint ++ serializedMetadata).length }
      messageSplitData := none
      contentSplitData := none }
  (primaryRecord :: records).map (backfillSplitMetadata (records.length + 1) originalSize)

/-- `JSON.stringify({ checkpoint, metadata })`'s argument object. -/
def pairObj (checkpoint metadata : Json) : Json :=
  .obj [(kCheckpoint, checkpoint), (kMetadata, metadata)]

/-- The record list of `_splitContentLevel`, chunk index `i` from 0. -/
def mkContentRecords (cfg : CheckpointSplittingConfig) (threadId recordId timestamp : String)
    (totalParts originalSize : Nat) :
    List (List Nat) → Nat → List SplitCheckpointRecord
  | [], _ => []
  | c :: cs, i =>
    { threadId := threadId
      recordId := if i = 0 then recordId
        else generateSplitRecordId recordId (i + 1) cfg.splitRecordPfx
      checkpoint := none
      metadata := none
      isSplit := true
      splitMetadata := some
        { originalRecordId := recordId
          totalParts := totalParts
          partNumber := i + 1
          strategy := .content_level
          splitTimestamp := timestamp
          checksum := some (calculateChecksum c)
          originalSize := originalSize
          partSize := c.length }
      messageSplitData := none
      contentSplitData := some { chunkData := c, encoding := "base64" } } ::
    mkContentRecords cfg threadId recordId timestamp totalParts originalSize cs (i + 1)

/-- `CheckpointSplittingService._splitContentLevel`.  The `partSize` of a
chunk is its character count, which equals its UTF-8 byte count since
Base64 output is ASCII. -/
def splitContentLevel (cfg : CheckpointSplittingConfig) (threadId recordId : String)
    (checkpoint metadata : Json) (timestamp : String) : List SplitCheckpointRecord :=
  let fullData := jsonStringify (pairObj checkpoint metadata)
  let base64Data := base64Encode fullData
  let chunks := chunkString base64Data cfg.maxChunkSize
  mkContentRecords cfg threadId recordId timestamp chunks.length fullData.length chunks 0

/-- `CheckpointSplittingService._performSplit`. -/
def performSplit (cfg : CheckpointSplittingConfig) (threadId recordId : String)
    (checkpoint metadata : Json) (timestamp : String) : List SplitCheckpointRecord :=
  match cfg.strategy with
  | .message_level => splitMessageLevel cfg threadId recordId checkpoint metadata timestamp
  | .content_level => splitContentLevel cfg threadId recordId checkpoint metadata timestamp

/-! ## Reassembly (read path) -/

/-- The errors thrown inside `_reassembleMessageLevel` /
`_reassembleContentLevel` (source messages noted per constructor):
`primaryPartMissing` = "Primary part not found or incomplete",
`checksumMismatch n` = "Checksum mismatch for part n",
`missingChunkData n` = "Part n missing chunk data",
`invalidJson` = the error raised by `JSON.parse` / value destructuring. -/
inductive ReassemblyError where
  | primaryPartMissing : ReassemblyError
  | checksumMismatch : Nat → ReassemblyError
  | missingChunkData : Nat → ReassemblyError
  | invalidJson : ReassemblyError
deriving DecidableEq

/-- `(r.splitMetadata?.partNumber || 0)` — the sort key (note that a
stored part number 0 and a missing descriptor both yield 0). -/
def partNumberKey (r : SplitCheckpointRecord) : Nat :=
  match r.splitMetadata with
  | some sm => sm.partNumber
  | none => 0

/-- Stable insert for the part sort (JS `Array.prototype.sort` is
stable; a stable sort by one key is unique, so insertion sort models
it exactly). -/
def insertByKey (x : SplitCheckpointRecord) : List SplitCheckpointRecord → List SplitCheckpointRecord
  | [] => [x]
  | y :: ys => if partNumberKey y < partNumberKey x then y :: insertByKey x ys else x :: y :: ys

/-- `parts.sort((a, b) => (a.splitMetadata?.partNumber || 0) - (b...))`. -/
def sortByPartNumber : List SplitCheckpointRecord → List SplitCheckpointRecord
  | [] => []
  | x :: xs => insertByKey x (sortByPartNumber xs)

/-- `parts.find(p => p.splitMetadata?.partNumber === 0)`. -/
def findPrimary (parts : List SplitCheckpointRecord) : Option SplitCheckpointRecord :=
  parts.find? (fun p => match p.splitMetadata with
    | some sm => sm.partNumber == 0
    | none => false)

/-- `part.splitMetadata?.checksum`. -/
def storedChecksum (p : SplitCheckpointRecord) : Option (List Nat) :=
  match p.splitMetadata with
  | some sm => sm.checksum
  | none => none

/-- The guard `part.messageSplitData && part.splitMetadata?.partNumber !== 0`
(when the descriptor is missing, `undefined !== 0` is true). -/
def isAuxForMessages (p : SplitCheckpointRecord) : Bool :=
  p.messageSplitData.isSome && (match p.splitMetadata with
    | some sm => sm.partNumber != 0
    | none => true)

/-- `validateChecksums && part.splitMetadata?.checksum` (an empty-string
checksum is falsy and also skips validation). -/
def wantsChecksum (validate : Bool) (p : SplitCheckpointRecord) : Bool :=
  validate && (match storedChecksum p with
    | some c => !c.isEmpty
    | none => false)

/-- `messagesByChannel[channelName].push(...messages)` on an
insertion-ordered string-keyed accumulator. -/
def addMessages : List (List Nat × List Json) → List Nat → List Json → List (List Nat × List Json)
  | [], name, ms => [(name, ms)]
  | (k, vs) :: rest, name, ms =>
    if k = name then (k, vs ++ ms) :: rest else (k, vs) :: addMessages rest name ms

/-- The per-part loop of `_reassembleMessageLevel`: checksum gate, then
parse and accumulate the chunk's messages by channel.  (A
`messagesData` that parses to a non-array would make the JS spread
throw; it is modelled as `invalidJson`.) -/
def accumulateMessages (validate : Bool) :
    List SplitCheckpointRecord → List (List Nat × List Json) →
    Except ReassemblyError (List (List Nat × List Json))
  | [], acc => .ok acc
  | p :: rest, acc =>
    if isAuxForMessages p then
      match p.messageSplitData with
      | none => accumulateMessages validate rest acc
      | some msd =>
        if wantsChecksum validate p ∧ calculateChecksum msd.messagesData ≠ (storedChecksum p).getD [] then
          .error (.checksumMismatch (partNumberKey p))
        else
          match jsonParse msd.messagesData with
          | some (.arr ms) => accumulateMessages validate rest (addMessages acc msd.channelName ms)
          | _ => .error .invalidJson
    else accumulateMessages validate rest acc

/-- Write one channel's accumulated messages back into the parsed
checkpoint (`channel_values[channelName].messages = messages`; only
object channel values are updated, as in the source's `typeof` guard). -/
def restoreChannel (cp : Json) (name : List Nat) (ms : List Json) : Json :=
  match getField cp kChannelValues with
  | some (.obj cvs) =>
    match lookupField cvs name with
    | some (.obj chObj) =>
        setField cp kChannelValues
          (.obj (setFieldList cvs name (.obj (setFieldList chObj kMessages (.arr ms)))))
    | _ => cp
  | _ => cp

/-- The restore loop of `_reassembleMessageLevel`, guarded by
`if (checkpoint.channel_values)`. -/
def restoreMessages (cp : Json) (acc : List (List Nat × List Json)) : Json :=
  match getField cp kChannelValues with
  | some v => if jsTruthy v then acc.foldl (fun c p => restoreChannel c p.1 p.2) cp else cp
  | none => cp

/-- `CheckpointSplittingService._reassembleMessageLevel`. -/
def reassembleMessageLevel (parts : List SplitCheckpointRecord) (validateChecksums : Bool) :
    Except ReassemblyError (Json × Json) :=
  match findPrimary parts with
  | none => .error .primaryPartMissing
  | some primaryPart =>
    match primaryPart.checkpoint, primaryPart.metadata with
    | some cpBytes, some mdBytes =>
      if cpBytes.isEmpty || mdBytes.isEmpty then .error .primaryPartMissing
      else
        match jsonParse cpBytes, jsonParse mdBytes with
        | some checkpoint, some metadata =>
          (accumulateMessages validateChecksums parts []).map
            (fun acc => (restoreMessages checkpoint acc, metadata))
        | _, _ => .error .invalidJson
    | _, _ => .error .primaryPartMissing

/-- The per-part loop of `_reassembleContentLevel`: presence and
checksum gates, then concatenation of `chunkData` (an empty
`chunkData` string is falsy and reported as missing, as in the
source). -/
def collectChunks (validate : Bool) : List SplitCheckpointRecord → Except ReassemblyError (List Nat)
  | [] => .ok []
  | p :: rest =>
    match p.contentSplitData with
    | none => .error (.missingChunkData (partNumberKey p))
    | some csd =>
      if csd.chunkData.isEmpty then .error (.missingChunkData (partNumberKey p))
      else if wantsChecksum validate p ∧ calculateChecksum csd.chunkData ≠ (storedChecksum p).getD [] then
        .error (.checksumMismatch (partNumberKey p))
      else (collectChunks validate rest).map (fun s => csd.chunkData ++ s)

/-- `CheckpointSplittingService._reassembleContentLevel`.  (Node's
Base64 decoder never throws; input outside the encoder's codomain is
not exercised by any claim and is folded into `invalidJson`.  JS
destructuring of a missing property yields `undefined`, modelled as
`null`.) -/
def reassembleContentLevel (parts : List SplitCheckpointRecord) (validateChecksums : Bool) :
    Except ReassemblyError (Json × Json) :=
  let sortedParts := sortByPartNumber parts
  match collectChunks validateChecksums sortedParts with
  | .error e => .error e
  | .ok reassembledBase64 =>
    match base64Decode reassembledBase64 with
    | none => .error .invalidJson
    | some decodedData =>
      match jsonParse decodedData with
      | some j => .ok ((getField j kCheckpoint).getD .null, (getField j kMetadata).getD .null)
      | none => .error .invalidJson

/-- `CheckpointSplittingService._performReassembly`. -/
def performReassembly (parts : List SplitCheckpointRecord) (strategy : SplittingStrategy)
    (validateChecksums : Bool) : Except ReassemblyError (Json × Json) :=
  match strategy with
  | .message_level => reassembleMessageLevel parts validateChecksums
  | .content_level => reassembleContentLevel parts validateChecksums

/-! ## The store and the top-level reassembly entry point -/

/-- The checkpoints table, keyed by `(threadId, recordId)`. -/
abbrev Store := List ((String × String) × SplitCheckpointRecord)

/-- `checkpointsModel.get({ threadId, recordId })`. -/
def storeGet : Store → String → String → Option SplitCheckpointRecord
  | [], _, _ => none
  | (k, rec) :: rest, threadId, recordId =>
    if k.1 = threadId ∧ k.2 = recordId then some rec else storeGet rest threadId recordId

/-- The auxiliary record ids `_gatherSplitParts` requests: part numbers
`1 .. totalParts - 1`, each with the string literal `"split"` as the
id's leading segment (the source does not consult the configured
value here). -/
def gatherAuxIds (recordId : String) (totalParts : Nat) : List String :=
  (List.range' 1 (totalParts - 1)).map (fun partNum => generateSplitRecordId recordId partNum "split")

/-- `CheckpointSplittingService._gatherSplitParts` (the wall-clock
timeout check cannot fire in a pure model and is omitted; a failed
`get` contributes no part). -/
def gatherSplitParts (st : Store) (threadId recordId : String) (sm : SplitRecordMetadata) :
    List SplitCheckpointRecord :=
  let primary := match storeGet st threadId recordId with
    | some r => [r]
    | none => []
  let auxParts := (gatherAuxIds recordId sm.totalParts).filterMap (fun rid => storeGet st threadId rid)
  sortByPartNumber (primary ++ auxParts)

/-- `ReassemblyOptions`. -/
structure ReassemblyOptions where
  validateChecksums : Bool
  timeout : Nat
  enableLogging : Bool

/-- `ReassemblyResult` (the wall-clock `reassemblyTime` field is
omitted). -/
structure ReassemblyResult where
  success : Bool
  data : Option (Json × Json)
  warnings : List String
  partsReassembled : Nat
  totalExpectedParts : Nat

/-- The `error.message` texts of the reassembly errors (the
`invalidJson` text is the runtime's `JSON.parse` message and is
environment-specific). -/
def reassemblyErrorMessage : ReassemblyError → String
  | .primaryPartMissing => "Primary part not found or incomplete"
  | .checksumMismatch n => "Checksum mismatch for part " ++ toString n
  | .missingChunkData n => "Part " ++ toString n ++ " missing chunk data"
  | .invalidJson => "Unexpected token in JSON"

/-- `CheckpointSplittingService.reassembleCheckpoint`.  An absent
record and a record with a falsy `isSplit` flag take the same branch
(`!primaryRecord?.isSplit`); a missing descriptor under `isSplit=true`
makes the `splitMetadata!.totalParts` access throw, which the catch
block converts to a failed result. -/
def reassembleCheckpoint (st : Store) (threadId recordId : String)
    (options : ReassemblyOptions) : ReassemblyResult :=
  match storeGet st threadId recordId with
  | none =>
    { success := false, data := none, warnings := ["Record is not split"]
      partsReassembled := 0, totalExpectedParts := 1 }
  | some primaryRecord =>
    if primaryRecord.isSplit = false then
      { success := false, data := none, warnings := ["Record is not split"]
        partsReassembled := 0, totalExpectedParts := 1 }
    else
      match primaryRecord.splitMetadata with
      | none =>
        { success := false, data := none
          warnings := ["Reassembly failed: Cannot read properties of undefined"]
          partsReassembled := 0, totalExpectedParts := 0 }
      | some splitMetadata =>
        let allParts := gatherSplitParts st threadId recordId splitMetadata
        let warnings := if allParts.length ≠ splitMetadata.totalParts then
            ["Found " ++ toString allParts.length ++ "/" ++
             toString splitMetadata.totalParts ++ " parts"]
          else []
        match performReassembly allParts splitMetadata.strategy options.validateChecksums with
        | .ok data =>
          { success := true, data := some data, warnings := warnings
            partsReassembled := allParts.length, totalExpectedParts := splitMetadata.totalParts }
        | .error e =>
          { success := false, data := none
            warnings := ["Reassembly failed: " ++ reassemblyErrorMessage e]
            partsReassembled := 0, totalExpectedParts := 0 }

/-! ## Storing shards with retry and rollback -/

/-- The behaviour of the underlying store during `_storeSplitRecords`:
whether the `create` of record index `i` fails at attempt `a` (0-based),
the message of that error, and whether a rollback `delete` of a given
record id fails. -/
structure StoreBehavior where
  createFails : Nat → Nat → Bool
  createErrMsg : Nat → Nat → String
  deleteFails : String → Bool

/-- Trace of one record's retry loop. -/
structure AttemptOutcome where
  stored : Bool
  attempts : Nat
  sleeps : List Nat
  errs : List String

/-- The `while (retries < maxRetries && !stored)` loop, with fuel
`maxRetries - retries` (invoked with fuel `maxRetries`, `retries = 0`).
After a failed attempt the loop sleeps `2 ^ retries * 100` ms whenever
further attempts remain. -/
def runAttempts (behavior : StoreBehavior) (i maxRetries : Nat) :
    Nat → Nat → AttemptOutcome
  | 0, _ => { stored := false, attempts := 0, sleeps := [], errs := [] }
  | fuel + 1, retries =>
    if behavior.createFails i retries then
      let out := runAttempts behavior i maxRetries fuel (retries + 1)
      { stored := out.stored
        attempts := out.attempts + 1
        sleeps := (if retries + 1 < maxRetries then [2 ^ (retries + 1) * 100] else []) ++ out.sleeps
        errs := behavior.createErrMsg i retries :: out.errs }
    else { stored := true, attempts := 1, sleeps := [], errs := [] }

/-- Trace of a whole `_storeSplitRecords` run. -/
structure StoreRun where
  result : Except String (List String)
  created : List String
  deletesIssued : List String
  deletesSucceeded : List String
  sleeps : List Nat
  attempts : List Nat
  errors : List String

/-- `_rollbackStoredRecords`: a delete is issued for every id; failures
are logged and swallowed, so only the set of successful deletes varies
with the behaviour. -/
def rollbackStoredRecords (behavior : StoreBehavior) (recordIds : List String) : List String :=
  recordIds.filter (fun rid => !behavior.deleteFails rid)

/-- The record loop of `_storeSplitRecords` with accumulated trace. -/
def storeSplitRecordsGo (behavior : StoreBehavior) (maxRetries : Nat) :
    List SplitCheckpointRecord → Nat → List String → List Nat → List Nat → List String → StoreRun
  | [], _, created, sleeps, attempts, errors =>
    { result := .ok created, created := created, deletesIssued := [], deletesSucceeded := []
      sleeps := sleeps, attempts := attempts, errors := errors }
  | r :: rest, i, created, sleeps, attempts, errors =>
    let out := runAttempts behavior i maxRetries maxRetries 0
    if out.stored then
      storeSplitRecordsGo behavior maxRetries rest (i + 1) (created ++ [r.recordId])
        (sleeps ++ out.sleeps) (attempts ++ [out.attempts]) (errors ++ out.errs)
    else
      { result := .error ("Failed to store split record after " ++ toString maxRetries ++
          " retries: " ++ ((errors ++ out.errs).getLast?.getD "undefined"))
        created := created
        deletesIssued := created
        deletesSucceeded := rollbackStoredRecords behavior created
        sleeps := sleeps ++ out.sleeps
        attempts := attempts ++ [out.attempts]
        errors := errors ++ out.errs }

/-- `CheckpointSplittingService._storeSplitRecords`. -/
def storeSplitRecords (behavior : StoreBehavior) (cfg : CheckpointSplittingConfig)
    (records : List SplitCheckpointRecord) : StoreRun :=
  storeSplitRecordsGo behavior cfg.maxRetries records 0 [] [] [] []

/-! ## Size analysis (`CheckpointSizeService`) -/

/-- `Math.ceil(utf8Size * 1.33)`, modelled exactly over the rationals
(`133 * n / 100` rounded up); the double-precision product agrees with
the exact value on every reachable size (JSON texts are far below the
2^45-byte scale at which the representation error of the literal
`1.33` could move a ceiling). -/
def ceil133 (n : Nat) : Nat := (133 * n + 99) / 100

/-- `CheckpointSizeService._calculateDataSize`. -/
def calculateDataSize (data : Json) : Nat := ceil133 (jsonStringify data).length

/-- `CheckpointSizeService.DYNAMODB_OVERHEAD_BYTES`. -/
def DYNAMODB_OVERHEAD_BYTES : Nat := 1024

structure LargestChannel where
  name : List Nat
  messageCount : Nat
  estimatedSize : Nat

structure SizeBreakdown where
  checkpoint : Nat
  metadata : Nat
  overhead : Nat

structure SizeAnalysisResult where
  totalSize : Nat
  exceedsThreshold : Bool
  sizeBreakdown : SizeBreakdown
  estimatedParts : Nat
  largestComponent : String
  largestChannel : Option LargestChannel

/-- `_findLargestChannel`'s per-channel test (`Array.isArray` only, no
non-emptiness requirement). -/
def channelMessagesArray (cv : Json) : Option (List Json) :=
  match cv with
  | .obj fs =>
    match lookupField fs kMessages with
    | some (.arr ms) => some ms
    | _ => none
  | _ => none

/-- The loop of `_findLargestChannel` (strict `>` keeps the first
channel on ties). -/
def findLargestChannelGo : List (List Nat × Json) → Option LargestChannel → Nat → Option LargestChannel
  | [], best, _ => best
  | (name, cv) :: rest, best, maxSize =>
    match channelMessagesArray cv with
    | some ms =>
      let channelSize := calculateDataSize (.arr ms)
      if channelSize > maxSize then
        findLargestChannelGo rest
          (some { name := name, messageCount := ms.length, estimatedSize := channelSize })
          channelSize
      else findLargestChannelGo rest best maxSize
    | none => findLargestChannelGo rest best maxSize

/-- `CheckpointSizeService._findLargestChannel`. -/
def findLargestChannel (checkpoint : Json) : Option LargestChannel :=
  findLargestChannelGo (channelEntries checkpoint) none 0

/-- `Math.ceil(a / b)` on naturals (only invoked with `b > 0` under the
validated configuration bounds). -/
def ceilDiv (a b : Nat) : Nat := (a + b - 1) / b

/-- `CheckpointSizeService._estimateMessageLevelParts`. -/
def estimateMessageLevelParts (checkpoint : Json) (maxChunkSize : Nat) : Nat :=
  1 + (channelEntries checkpoint).foldl (fun acc nc =>
    match channelMessages nc.2 with
    | some ms => acc + ceilDiv (calculateDataSize (.arr ms)) maxChunkSize
    | none => acc) 0

/-- `CheckpointSizeService._estimatePartsNeeded` (the `default` arm is
unreachable for the two-constructor strategy type). -/
def estimatePartsNeeded (cfg : CheckpointSplittingConfig) (totalSize : Nat)
    (checkpoint : Json) : Nat :=
  match cfg.strategy with
  | .content_level => ceilDiv totalSize cfg.maxChunkSize
  | .message_level => estimateMessageLevelParts checkpoint cfg.maxChunkSize

/-- `CheckpointSizeService.analyzeCheckpointSize`. -/
def analyzeCheckpointSize (cfg : CheckpointSplittingConfig)
    (checkpoint metadata : Json) : SizeAnalysisResult :=
  let checkpointSize := calculateDataSize checkpoint
  let metadataSize := calculateDataSize metadata
  let overheadSize := DYNAMODB_OVERHEAD_BYTES
  let totalSize := checkpointSize + metadataSize + overheadSize
  { totalSize := totalSize
    exceedsThreshold := decide (totalSize > cfg.maxSizeThreshold)
    sizeBreakdown := { checkpoint := checkpointSize, metadata := metadataSize, overhead := overheadSize }
    estimatedParts := estimatePartsNeeded cfg totalSize checkpoint
    largestComponent := if checkpointSize > metadataSize then "checkpoint" else "metadata"
    largestChannel := findLargestChannel checkpoint }

/-! ## Heap model of `_splitMessageLevel`'s object handling

The pure functions above capture the values `_splitMessageLevel`
computes; this small mutable-heap model captures *which objects it
writes to*, so that the caller-immutability of the checkpoint (an
aliasing fact invisible to a pure translation) can be stated.  Objects
and arrays live at addresses; field values are either references or
primitive leaves.  The method's operations map as follows:
`{ ...checkpoint }` and `{ ...channelValue, messages: [] }` allocate
fresh nodes, `cleanedChannelValues` is built as a fresh object, and the
single assignment `primaryCheckpoint.channel_values = cleaned` writes
to the freshly allocated copy.  All remaining work of the method only
reads the heap. -/

abbrev Addr := Nat

/-- A field or element value: a reference or an opaque primitive. -/
inductive HVal where
  | ref : Addr → HVal
  | prim : Json → HVal

/-- A heap node: a plain object or an array. -/
inductive HNode where
  | obj : List (List Nat × HVal) → HNode
  | arr : List HVal → HNode

abbrev Heap := List (Addr × HNode)

def heapLookup : Heap → Addr → Option HNode
  | [], _ => none
  | (b, n) :: rest, a => if b = a then some n else heapLookup rest a

def heapMaxAddr (h : Heap) : Nat :=
  h.foldr (fun p m => max p.1 m) 0

/-- Allocate a fresh node. -/
def heapAlloc (h : Heap) (n : HNode) : Heap × Addr :=
  let a := heapMaxAddr h + 1
  ((a, n) :: h, a)

/-- Overwrite the node at an (existing) address. -/
def heapSet (h : Heap) (a : Addr) (n : HNode) : Heap :=
  h.map (fun p => if p.1 = a then (a, n) else p)

def lookupHField : List (List Nat × HVal) → List Nat → Option HVal
  | [], _ => none
  | (k, v) :: fs, key => if k = key then some v else lookupHField fs key

def setHField : List (List Nat × HVal) → List Nat → HVal → List (List Nat × HVal)
  | [], key, v => [(key, v)]
  | (k, w) :: fs, key, v =>
      if k = key then (k, v) :: fs else (k, w) :: setHField fs key v

/-- The splitter's message-bearing-channel test over the heap: the
channel value references an object node whose `messages` field
references a non-empty array node; returns the channel object's
fields. -/
def messageChannelFields (h : Heap) (v : HVal) : Option (List (List Nat × HVal)) :=
  match v with
  | .ref ca =>
    match heapLookup h ca with
    | some (.obj chFs) =>
      match lookupHField chFs kMessages with
      | some (.ref ma) =>
        match heapLookup h ma with
        | some (.arr es) => if es.isEmpty then none else some chFs
        | _ => none
      | _ => none
    | _ => none
  | _ => none

/-- The channel loop of `_splitMessageLevel`, heap effects only: for a
message-bearing channel allocate the empty replacement array and the
channel copy `{ ...channelValue, messages: [] }`; every other channel
value is passed through unchanged.  Returns the extended heap and the
`cleanedChannelValues` field list. -/
def processChannelsHeap : Heap → List (List Nat × HVal) → Heap × List (List Nat × HVal)
  | h, [] => (h, [])
  | h, (name, v) :: rest =>
    match messageChannelFields h v with
    | some chFs =>
      let ha := heapAlloc h (.arr [])
      let hb := heapAlloc ha.1 (.obj (setHField chFs kMessages (.ref ha.2)))
      let out := processChannelsHeap hb.1 rest
      (out.1, (name, .ref hb.2) :: out.2)
    | none =>
      let out := processChannelsHeap h rest
      (out.1, (name, v) :: out.2)

/-- `_splitMessageLevel`'s heap effects: copy the checkpoint object,
build `cleanedChannelValues` (allocating per-channel copies), and
assign `channel_values` on the copy.  Returns the final heap and the
address of `primaryCheckpoint`. -/
def splitMessageLevelHeap (h0 : Heap) (cpAddr : Addr) : Heap × Addr :=
  let cpFields := match heapLookup h0 cpAddr with
    | some (.obj fs) => fs
    | _ => []
  let alloc1 := heapAlloc h0 (.obj cpFields)
  let h1 := alloc1.1
  let pAddr := alloc1.2
  let cvEntries : List (List Nat × HVal) :=
    match lookupHField cpFields kChannelValues with
    | some (.ref a) =>
      (match heapLookup h0 a with
       | some (.obj fs) => fs
       | _ => [])
    | _ => []
  let pc := processChannelsHeap h1 cvEntries
  let h2 := pc.1
  let cleanedFields := pc.2
  let alloc2 := heapAlloc h2 (.obj cleanedFields)
  let h3 := alloc2.1
  let cvAddr := alloc2.2
  let pFields := match heapLookup h3 pAddr with
    | some (.obj fs) => fs
    | _ => []
  let h4 := heapSet h3 pAddr (.obj (setHField pFields kChannelValues (.ref cvAddr)))
  (h4, pAddr)

/-! ## Auxiliary predicates -/

/-- Byte-validity of a model string (UTF-8 content bytes are < 256). -/
def bytesWf (l : List Nat) : Bool := l.all (fun b => b < 256)

mutual

/-- Well-formedness of a modelled JSON value: every string and key is a
genuine byte list.  This is an invariant of the model's representation
(real UTF-8 data always satisfies it), needed where payload bytes flow
into the Base64 encoder. -/
def jsonWf : Json → Bool
  | .null => true
  | .bool _ => true
  | .num _ => true
  | .str s => bytesWf s
  | .arr es => jsonWfList es
  | .obj fs => jsonWfFields fs

def jsonWfList : List Json → Bool
  | [] => true
  | e :: es => jsonWf e && jsonWfList es

def jsonWfFields : List (List Nat × Json) → Bool
  | [] => true
  | (k, v) :: fs => bytesWf k && jsonWf v && jsonWfFields fs

end

/-- What may legally follow a rendered JSON value inside a larger
rendered document: nothing, a comma, or a closing bracket.  (Needed so
that number parsing, which is maximal-munch, stops at the value
boundary.) -/
def restOk : List Nat → Prop
  | [] => True
  | b :: _ => b = 44 ∨ b = 93 ∨ b = 125

/-- The `chunkData` carried by a shard (`[]` when the record has no
`contentSplitData`), used to state the content-level concatenation
property. -/
def chunkDataOf (r : SplitCheckpointRecord) : List Nat :=
  match r.contentSplitData with
  | some csd => csd.chunkData
  | none => []

/-- The per-channel transformation `_splitMessageLevel` applies when
building `cleanedChannelValues`: message-bearing channels get a copy
with an emptied `messages` array, all others pass through unchanged. -/
def cleanChannel (cv : Json) : Json :=
  match channelMessages cv with
  | some _ => setField cv kMessages (.arr [])
  | none => cv

/-- A concrete valid configuration (the documented defaults). -/
def sampleConfig : CheckpointSplittingConfig :=
  { enabled := true
    maxSizeThreshold := 358400
    strategy := .message_level
    maxChunkSize := 307200
    enableSizeMonitoring := true
    splitRecordPfx := "split"
    maxRetries := 3
    operationTimeout := 30000 }

/-- A minimal stored record (concrete-instance helper). -/
def sampleRecord (rid : String) : SplitCheckpointRecord :=
  { threadId := "t", recordId := rid, checkpoint := none, metadata := none
    isSplit := true, splitMetadata := none, messageSplitData := none
    contentSplitData := none }

/-- A store behaviour whose second shard's `create` always fails
(concrete-instance helper). -/
def sampleStoreBehavior : StoreBehavior :=
  { createFails := fun j _ => decide (j = 1)
    createErrMsg := fun _ _ => "Storage failed"
    deleteFails := fun _ => false }

/-!
# Theorems

Helper lemmas first, then one theorem (plus witness or counterexample
where required) per claim C1 – C10.
-/

/-- `⌈a / 100⌉` over `ℚ` equals the natural-number ceiling division. -/
theorem natCeil_div100 (a : ℕ) : ⌈(a : ℚ) / 100⌉₊ = (a + 99) / 100 := by
  rcases Nat.eq_zero_or_pos ((a + 99) / 100) with h | h
  · have ha : a = 0 := by omega
    subst ha
    simp [h]
  · rw [Nat.ceil_eq_iff (Nat.pos_iff_ne_zero.mp h)]
    have h100 : (0 : ℚ) < 100 := by norm_num
    constructor
    · rw [lt_div_iff₀ h100]
      exact_mod_cast (by omega : ((a + 99) / 100 - 1) * 100 < a)
    · rw [div_le_iff₀ h100]
      exact_mod_cast (by omega : a ≤ ((a + 99) / 100) * 100)

/-- `ceil133` is exactly `Math.ceil(1.33 * n)`. -/
theorem ceil133_eq_ceil (n : ℕ) : ceil133 n = ⌈(1.33 : ℚ) * n⌉₊ := by
  have h : (1.33 : ℚ) * n = ((133 * n : ℕ) : ℚ) / 100 := by
    push_cast
    norm_num
    ring
  rw [h, natCeil_div100]
  rfl

/-- C4: `analyzeCheckpointSize` returns
`totalSize = ⌈1.33 · |JSON(checkpoint)|⌉ + ⌈1.33 · |JSON(metadata)|⌉ + 1024`
and flags `exceedsThreshold` exactly when `totalSize` strictly exceeds
the configured threshold (a record exactly at the threshold is not
marked). -/
theorem analyzeCheckpointSize_spec (cfg : CheckpointSplittingConfig)
    (checkpoint metadata : Json) :
    (analyzeCheckpointSize cfg checkpoint metadata).totalSize
        = ⌈(1.33 : ℚ) * (jsonStringify checkpoint).length⌉₊
          + ⌈(1.33 : ℚ) * (jsonStringify metadata).length⌉₊ + 1024
      ∧ ((analyzeCheckpointSize cfg checkpoint metadata).exceedsThreshold = true
          ↔ (analyzeCheckpointSize cfg checkpoint metadata).totalSize > cfg.maxSizeThreshold) := by
  constructor
  · show calculateDataSize checkpoint + calculateDataSize metadata + DYNAMODB_OVERHEAD_BYTES = _
    rw [calculateDataSize, calculateDataSize, ceil133_eq_ceil, ceil133_eq_ceil]
    rfl
  · simp [analyzeCheckpointSize]

/-- C8 (amended): `largestComponent` is `"checkpoint"` exactly when the
checkpoint's computed size strictly exceeds the metadata's; on a tie
the metadata wins (the source uses a strict `>`). -/
theorem analyzeCheckpointSize_largestComponent (cfg : CheckpointSplittingConfig)
    (checkpoint metadata : Json) :
    ((analyzeCheckpointSize cfg checkpoint metadata).largestComponent = "checkpoint"
        ↔ calculateDataSize checkpoint > calculateDataSize metadata)
      ∧ (calculateDataSize checkpoint = calculateDataSize metadata →
          (analyzeCheckpointSize cfg checkpoint metadata).largestComponent = "metadata") := by
  constructor
  · show (if calculateDataSize checkpoint > calculateDataSize metadata
        then "checkpoint" else "metadata") = "checkpoint" ↔ _
    split
    · simp_all
    · simp_all
  · intro h
    show (if calculateDataSize checkpoint > calculateDataSize metadata
        then "checkpoint" else "metadata") = "metadata"
    rw [if_neg (by omega)]

theorem analyzeCheckpointSize_largestComponent_witness :
    calculateDataSize Json.null = calculateDataSize Json.null
    ∧ (analyzeCheckpointSize sampleConfig Json.null Json.null).largestComponent = "metadata" :=
  ⟨rfl, (analyzeCheckpointSize_largestComponent sampleConfig Json.null Json.null).2 rfl⟩

/-- C8 counterexample: with byte-identical payloads the two computed
sizes tie, and the source reports `"metadata"`, not `"checkpoint"` as
the claim states. -/
theorem analyzeCheckpointSize_tie_counterexample :
    calculateDataSize Json.null = calculateDataSize Json.null
      ∧ (analyzeCheckpointSize sampleConfig Json.null Json.null).largestComponent ≠ "checkpoint" := by
  exact ⟨rfl, by decide⟩

/-- C7 (amended): when the store holds no record at the primary key,
`reassembleCheckpoint` fails with the warning `"Record is not split"` —
the same warning returned for an existing record whose `isSplit` flag
is not set; the source does not distinguish the two cases. -/
theorem reassembleCheckpoint_absent (st : Store) (threadId recordId : String)
    (options : ReassemblyOptions) (h : storeGet st threadId recordId = none) :
    (reassembleCheckpoint st threadId recordId options).success = false
      ∧ (reassembleCheckpoint st threadId recordId options).warnings = ["Record is not split"]
      ∧ (∀ st2 r2, storeGet st2 threadId recordId = some r2 → r2.isSplit = false →
          reassembleCheckpoint st2 threadId recordId options
            = reassembleCheckpoint st threadId recordId options) := by
  refine ⟨?_, ?_, ?_⟩
  · rw [reassembleCheckpoint, h]
  · rw [reassembleCheckpoint, h]
  · intro st2 r2 h2 hsplit
    rw [reassembleCheckpoint, h2, reassembleCheckpoint, h]
    simp [hsplit]

theorem reassembleCheckpoint_absent_witness :
    storeGet [] "thread-1" "checkpoint#ns#1" = none
      ∧ (reassembleCheckpoint [] "thread-1" "checkpoint#ns#1"
          { validateChecksums := true, timeout := 5000, enableLogging := false }).warnings
        = ["Record is not split"] :=
  ⟨rfl, (reassembleCheckpoint_absent [] "thread-1" "checkpoint#ns#1"
    { validateChecksums := true, timeout := 5000, enableLogging := false } rfl).2.1⟩

/-- C7 counterexample: for an absent record the warning list is
`["Record is not split"]`, not `["Record not found"]` as the claim
states (no branch of the source produces the latter string). -/
theorem reassembleCheckpoint_absent_counterexample :
    storeGet [] "thread-1" "checkpoint#ns#1" = none
      ∧ (reassembleCheckpoint [] "thread-1" "checkpoint#ns#1"
          { validateChecksums := true, timeout := 5000, enableLogging := false }).warnings
        ≠ ["Record not found"] := by
  exact ⟨rfl, by decide⟩

/-- C6 (code bug): with `splitRecordPrefix` configured as `"shard"`, the
write path stores its auxiliary shard under `"shard#r#part#0001"`, but
`_gatherSplitParts` requests `"split#r#part#0001"` — the read loop
hardcodes the `"split"` prefix instead of the configured value, so the
written auxiliary is never fetched again. -/
theorem gatherSplitParts_hardcoded_split_bug :
    ((performSplit { sampleConfig with splitRecordPfx := "shard" } "t" "r"
        (Json.obj [(kChannelValues,
          Json.obj [(strBytes "c", Json.obj [(kMessages, Json.arr [Json.null])])])])
        Json.null "ts").filter (fun r => r.recordId ≠ "r")).map (fun r => r.recordId)
      = ["shard#r#part#0001"]
    ∧ (performSplit { sampleConfig with splitRecordPfx := "shard" } "t" "r"
        (Json.obj [(kChannelValues,
          Json.obj [(strBytes "c", Json.obj [(kMessages, Json.arr [Json.null])])])])
        Json.null "ts").length = 2
    ∧ gatherAuxIds "r" 2 = ["split#r#part#0001"]
    ∧ "shard#r#part#0001" ∉ gatherAuxIds "r" 2 := by
  exact ⟨by decide, by decide, by decide, by decide⟩

/-- Invariant lemma for the greedy accumulator loop of
`_chunkMessages`: starting from a non-empty current chunk whose
recorded size is accurate (and within bound unless it is a lone
oversized message), the emitted chunks concatenate to
`cur ++ rest`, are non-empty, respect the bound whenever they hold at
least two messages, start with `cur`, and each is sealed only because
the next chunk's first message would overflow it. -/
theorem chunkMessagesAux_spec (k : Nat) (rest : List Json) :
    ∀ (cur : List Json) (curSize : Nat),
      cur ≠ [] → curSize = (cur.map messageBytes).sum →
      (2 ≤ cur.length → curSize ≤ k) →
      (chunkMessagesAux k rest cur curSize).flatten = cur ++ rest
      ∧ (∀ c ∈ chunkMessagesAux k rest cur curSize, c ≠ [])
      ∧ (∀ c ∈ chunkMessagesAux k rest cur curSize, 2 ≤ c.length → (c.map messageBytes).sum ≤ k)
      ∧ (∃ t, (chunkMessagesAux k rest cur curSize).head? = some (cur ++ t))
      ∧ List.Chain' (fun c c' => ∀ m ∈ c'.head?, k < (c.map messageBytes).sum + messageBytes m)
          (chunkMessagesAux k rest cur curSize) := by
  induction rest with
  | nil =>
    intro cur curSize hne hsz hinv
    have hne' : cur.isEmpty = false := by
      cases cur with
      | nil => exact absurd rfl hne
      | cons a l => rfl
    simp only [chunkMessagesAux, hne']
    refine ⟨by simp, by simp [hne], ?_, ⟨[], by simp⟩, by simp⟩
    intro c hc h2
    simp only [Bool.false_eq_true, if_false, List.mem_singleton] at hc
    subst hc
    exact hsz ▸ hinv h2
  | cons m rest' ih =>
    intro cur curSize hne hsz hinv
    have hne' : ¬ cur.isEmpty := by
      cases cur with
      | nil => exact absurd rfl hne
      | cons a l => simp
    rw [chunkMessagesAux]
    by_cases hseal : curSize + messageBytes m > k ∧ ¬ cur.isEmpty
    · rw [if_pos hseal]
      have ihm := ih [m] (messageBytes m) (by simp) (by simp) (by simp)
      obtain ⟨j1, n1, b1, ⟨t1, h1⟩, ch1⟩ := ihm
      refine ⟨?_, ?_, ?_, ⟨[], by simp⟩, ?_⟩
      · simp [j1]
      · intro c hc
        rcases List.mem_cons.mp hc with h | h
        · exact h ▸ hne
        · exact n1 c h
      · intro c hc
        rcases List.mem_cons.mp hc with h | h
        · subst h
          intro h2
          exact hsz ▸ hinv h2
        · exact b1 c h
      · rw [List.chain'_cons']
        refine ⟨?_, ch1⟩
        intro c' hc'
        rw [h1] at hc'
        simp only [Option.mem_def, Option.some.injEq] at hc'
        subst hc'
        intro mm hmm
        simp only [List.singleton_append, List.head?_cons, Option.mem_def,
          Option.some.injEq] at hmm
        subst hmm
        have h1' := hseal.1
        omega
    · rw [if_neg hseal]
      have hle : curSize + messageBytes m ≤ k := by
        rcases not_and_or.mp hseal with h | h
        · omega
        · exact absurd hne' h
      have ihm := ih (cur ++ [m]) (curSize + messageBytes m) (by simp)
        (by simp [hsz]) (fun _ => hle)
      obtain ⟨j1, n1, b1, ⟨t1, h1⟩, ch1⟩ := ihm
      refine ⟨?_, n1, b1, ?_, ch1⟩
      · rw [j1]
        simp
      · exact ⟨[m] ++ t1, by rw [h1]; simp⟩

/-- C5: for a non-empty message list and positive `maxChunkSize`,
`_chunkMessages` returns non-empty chunks whose in-order concatenation
is the original list; a chunk holding at least two messages never
exceeds `maxChunkSize` (messages are appended only while they fit), a
chunk is sealed only because the next chunk's first message would
overflow it, and consequently a message larger than `maxChunkSize`
sits in a chunk of its own. -/
theorem chunkMessages_spec (messages : List Json) (maxChunkSize : Nat)
    (hne : messages ≠ []) (hk : 0 < maxChunkSize) :
    (chunkMessages messages maxChunkSize).flatten = messages
    ∧ (∀ c ∈ chunkMessages messages maxChunkSize, c ≠ [])
    ∧ (∀ c ∈ chunkMessages messages maxChunkSize, 2 ≤ c.length →
        (c.map messageBytes).sum ≤ maxChunkSize)
    ∧ List.Chain' (fun c c' => ∀ m ∈ c'.head?,
        maxChunkSize < (c.map messageBytes).sum + messageBytes m)
        (chunkMessages messages maxChunkSize)
    ∧ (∀ c ∈ chunkMessages messages maxChunkSize, ∀ m ∈ c,
        maxChunkSize < messageBytes m → c = [m]) := by
  obtain ⟨m, rest, rfl⟩ : ∃ m rest, messages = m :: rest := by
    cases messages with
    | nil => exact absurd rfl hne
    | cons a l => exact ⟨a, l, rfl⟩
  have hstep : chunkMessages (m :: rest) maxChunkSize
      = chunkMessagesAux maxChunkSize rest [m] (messageBytes m) := by
    rw [chunkMessages, chunkMessagesAux]
    simp
  obtain ⟨j1, n1, b1, _, ch1⟩ := chunkMessagesAux_spec maxChunkSize rest [m]
    (messageBytes m) (by simp) (by simp) (by simp)
  rw [hstep]
  refine ⟨by simpa using j1, n1, b1, ch1, ?_⟩
  intro c hc mm hmm hbig
  rcases Nat.lt_or_ge c.length 2 with hlen | hlen
  · cases c with
    | nil => exact absurd hmm (List.not_mem_nil mm)
    | cons a l =>
      cases l with
      | nil =>
        simp only [List.mem_singleton] at hmm
        rw [hmm]
      | cons b l2 =>
        simp only [List.length_cons] at hlen
        omega
  · exfalso
    have hsum := b1 c hc hlen
    have : messageBytes mm ≤ (c.map messageBytes).sum :=
      List.single_le_sum (fun x _ => Nat.zero_le x) _ (List.mem_map_of_mem _ hmm)
    omega

theorem chunkMessages_spec_witness :
    ([Json.null, Json.bool true] ≠ ([] : List Json) ∧ 0 < 5)
    ∧ (chunkMessages [Json.null, Json.bool true] 5).flatten = [Json.null, Json.bool true] :=
  ⟨⟨by simp, by decide⟩,
    (chunkMessages_spec [Json.null, Json.bool true] 5 (by simp) (by decide)).1⟩

/-- When every attempt of a shard fails, the retry loop makes exactly
`fuel` attempts, sleeps `2 ^ a * 100` ms after each failed attempt `a`
that leaves retries remaining, collects every error, and ends
unstored. -/
theorem runAttempts_allFail (behavior : StoreBehavior) (i maxRetries : Nat) :
    ∀ (fuel retries : Nat), fuel = maxRetries - retries →
      (∀ a, retries ≤ a → a < maxRetries → behavior.createFails i a = true) →
      runAttempts behavior i maxRetries fuel retries =
        { stored := false, attempts := fuel
          sleeps := (List.range' (retries + 1) (fuel - 1)).map (fun a => 2 ^ a * 100)
          errs := (List.range' retries fuel).map (behavior.createErrMsg i) } := by
  intro fuel
  induction fuel with
  | zero => intro retries _ _; rfl
  | succ fuel ih =>
    intro retries hfuel hfail
    have hret : retries < maxRetries := by omega
    rw [runAttempts, if_pos (hfail retries le_rfl hret),
      ih (retries + 1) (by omega) (fun a h1 h2 => hfail a (by omega) h2)]
    cases fuel with
    | zero =>
      have h2 : ¬ retries + 1 < maxRetries := by omega
      rw [if_neg h2]
      simp [List.range'_succ]
    | succ f =>
      have hlt : retries + 1 < maxRetries := by omega
      rw [if_pos hlt]
      simp only [Nat.add_sub_cancel, List.range'_succ, List.map_cons]
      rfl

/-- If some attempt within the budget succeeds, the shard is stored. -/
theorem runAttempts_stored_of_succeeds (behavior : StoreBehavior) (i maxRetries : Nat) :
    ∀ (fuel retries a : Nat), retries ≤ a → a < retries + fuel →
      behavior.createFails i a = false →
      (runAttempts behavior i maxRetries fuel retries).stored = true := by
  intro fuel
  induction fuel with
  | zero => intro retries a h1 h2 _; omega
  | succ fuel ih =>
    intro retries a h1 h2 h3
    rw [runAttempts]
    by_cases hf : behavior.createFails i retries = true
    · have hne : retries ≠ a := fun h => by rw [h, h3] at hf; cases hf
      rw [if_pos hf]
      exact ih (retries + 1) a (by omega) (by omega) h3
    · rw [if_neg hf]

/-- A shard is attempted at most `fuel` (= `maxRetries`) times. -/
theorem runAttempts_attempts_le (behavior : StoreBehavior) (i maxRetries : Nat) :
    ∀ (fuel retries : Nat), (runAttempts behavior i maxRetries fuel retries).attempts ≤ fuel := by
  intro fuel
  induction fuel with
  | zero => intro retries; exact le_rfl
  | succ fuel ih =>
    intro retries
    rw [runAttempts]
    by_cases hf : behavior.createFails i retries = true
    · rw [if_pos hf]
      exact Nat.succ_le_succ (ih (retries + 1))
    · rw [if_neg hf]
      simp

/-- The retry loop never consults `deleteFails`. -/
theorem runAttempts_congr (b b' : StoreBehavior) (hc : b.createFails = b'.createFails)
    (he : b.createErrMsg = b'.createErrMsg) (i maxRetries : Nat) :
    ∀ (fuel retries : Nat),
      runAttempts b i maxRetries fuel retries = runAttempts b' i maxRetries fuel retries := by
  intro fuel
  induction fuel with
  | zero => intro retries; rfl
  | succ fuel ih =>
    intro retries
    rw [runAttempts, runAttempts, hc, he, ih (retries + 1)]

theorem mapRange'_getLast? {α : Type} (f : Nat → α) (n : Nat) (hn : 0 < n) :
    ((List.range' 0 n).map f).getLast? = some (f (n - 1)) := by
  obtain ⟨m, rfl⟩ : ∃ m, n = m + 1 := ⟨n - 1, by omega⟩
  rw [List.range'_concat, List.map_append]
  simp

/-- The record loop of `_storeSplitRecords`: if shards before index `k`
each eventually store and shard `k` exhausts every attempt, the run
fails with an error wrapping the last underlying error, a rollback
delete is issued for exactly the shards created so far, and the failing
shard's backoff sleeps close the sleep trace. -/
theorem storeSplitRecordsGo_fail_spec (behavior : StoreBehavior) (maxRetries : Nat)
    (hmax : 0 < maxRetries) :
    ∀ (recs : List SplitCheckpointRecord) (k i : Nat) (created : List String)
      (sleeps : List Nat) (attempts : List Nat) (errors : List String),
      k < recs.length →
      (∀ j, j < k → ∃ a, a < maxRetries ∧ behavior.createFails (i + j) a = false) →
      (∀ a, a < maxRetries → behavior.createFails (i + k) a = true) →
      (storeSplitRecordsGo behavior maxRetries recs i created sleeps attempts errors).result
          = .error ("Failed to store split record after " ++ toString maxRetries ++
              " retries: " ++ behavior.createErrMsg (i + k) (maxRetries - 1))
        ∧ (storeSplitRecordsGo behavior maxRetries recs i created sleeps attempts errors).deletesIssued
          = created ++ (recs.take k).map (fun r => r.recordId)
        ∧ ∃ pre, (storeSplitRecordsGo behavior maxRetries recs i created sleeps attempts errors).sleeps
          = pre ++ (List.range' 1 (maxRetries - 1)).map (fun a => 2 ^ a * 100) := by
  intro recs
  induction recs with
  | nil =>
    intro k i created sleeps attempts errors hk
    simp at hk
  | cons r rest ih =>
    intro k i created sleeps attempts errors hk hprev hfail
    cases k with
    | zero =>
      have hout := runAttempts_allFail behavior i maxRetries maxRetries 0 (by omega)
        (fun a _ h2 => by simpa using hfail a h2)
      rw [storeSplitRecordsGo, hout]
      have hlast : ((errors ++ (List.range' 0 maxRetries).map (behavior.createErrMsg i)).getLast?).getD "undefined"
          = behavior.createErrMsg i (maxRetries - 1) := by
        rw [List.getLast?_append_of_ne_nil, mapRange'_getLast? _ _ hmax]
        · rfl
        · simp
          omega
      simp only [Bool.false_eq_true, if_false]
      refine ⟨?_, by simp, ⟨sleeps, rfl⟩⟩
      simp only [hlast]
      rw [Nat.add_zero]
    | succ k' =>
      obtain ⟨a, ha1, ha2⟩ := hprev 0 (by omega)
      have hst := runAttempts_stored_of_succeeds behavior i maxRetries maxRetries 0 a
        (by omega) (by omega) (by simpa using ha2)
      rw [storeSplitRecordsGo, if_pos hst]
      have := ih k' (i + 1) (created ++ [r.recordId])
        (sleeps ++ (runAttempts behavior i maxRetries maxRetries 0).sleeps)
        (attempts ++ [(runAttempts behavior i maxRetries maxRetries 0).attempts])
        (errors ++ (runAttempts behavior i maxRetries maxRetries 0).errs)
        (by simpa using hk)
        (fun j hj => by
          obtain ⟨b, hb1, hb2⟩ := hprev (j + 1) (by omega)
          exact ⟨b, hb1, by rw [show i + 1 + j = i + (j + 1) by omega]; exact hb2⟩)
        (fun b hb => by rw [show i + 1 + k' = i + (k' + 1) by omega]; exact hfail b hb)
      refine ⟨by rw [this.1]; rw [show i + 1 + k' = i + (k' + 1) by omega],
        ?_, this.2.2⟩
      rw [this.2.1]
      simp

/-- Attempt counts recorded by the record loop never exceed the
budget. -/
theorem storeSplitRecordsGo_attempts_le (behavior : StoreBehavior) (maxRetries : Nat) :
    ∀ (recs : List SplitCheckpointRecord) (i : Nat) (created : List String)
      (sleeps : List Nat) (attempts : List Nat) (errors : List String),
      (∀ n ∈ attempts, n ≤ maxRetries) →
      ∀ n ∈ (storeSplitRecordsGo behavior maxRetries recs i created sleeps attempts errors).attempts,
        n ≤ maxRetries := by
  intro recs
  induction recs with
  | nil => intro i created sleeps attempts errors h n hn; exact h n hn
  | cons r rest ih =>
    intro i created sleeps attempts errors h n hn
    rw [storeSplitRecordsGo] at hn
    by_cases hst : (runAttempts behavior i maxRetries maxRetries 0).stored = true
    · rw [if_pos hst] at hn
      refine ih (i + 1) _ _ _ _ ?_ n hn
      intro x hx
      rcases List.mem_append.mp hx with h1 | h1
      · exact h x h1
      · simp only [List.mem_singleton] at h1
        exact h1 ▸ runAttempts_attempts_le behavior i maxRetries maxRetries 0
    · rw [if_neg hst] at hn
      rcases List.mem_append.mp hn with h1 | h1
      · exact h n h1
      · simp only [List.mem_singleton] at h1
        exact h1 ▸ runAttempts_attempts_le behavior i maxRetries maxRetries 0

/-- The run's outcome and the set of rollback deletes issued do not
depend on whether the rollback deletes themselves fail: delete errors
are swallowed and never mask the original failure. -/
theorem storeSplitRecordsGo_deleteFails_indep (b b' : StoreBehavior)
    (hc : b.createFails = b'.createFails) (he : b.createErrMsg = b'.createErrMsg)
    (maxRetries : Nat) :
    ∀ (recs : List SplitCheckpointRecord) (i : Nat) (created : List String)
      (sleeps : List Nat) (attempts : List Nat) (errors : List String),
      (storeSplitRecordsGo b maxRetries recs i created sleeps attempts errors).result
        = (storeSplitRecordsGo b' maxRetries recs i created sleeps attempts errors).result
      ∧ (storeSplitRecordsGo b maxRetries recs i created sleeps attempts errors).deletesIssued
        = (storeSplitRecordsGo b' maxRetries recs i created sleeps attempts errors).deletesIssued := by
  intro recs
  induction recs with
  | nil => intro i created sleeps attempts errors; exact ⟨rfl, rfl⟩
  | cons r rest ih =>
    intro i created sleeps attempts errors
    rw [storeSplitRecordsGo, storeSplitRecordsGo,
      runAttempts_congr b b' hc he i maxRetries maxRetries 0]
    by_cases hst : (runAttempts b' i maxRetries maxRetries 0).stored = true
    · rw [if_pos hst, if_pos hst]
      exact ih (i + 1) _ _ _ _
    · rw [if_neg hst, if_neg hst]
      exact ⟨rfl, rfl⟩

/-- C3: rollback atomicity of `_storeSplitRecords`.  Each shard is
attempted at most `maxRetries` times with exponential-backoff sleeps of
`2 ^ attempt × 100` ms between attempts; if shard `k` exhausts every
attempt (shards before it having stored), the operation throws an
error wrapping the last underlying store error — it never returns
success — after issuing a rollback delete for exactly the shards
created so far, and neither the outcome nor the deletes issued depend
on delete failures during rollback. -/
theorem storeSplitRecords_rollback_spec (behavior : StoreBehavior)
    (cfg : CheckpointSplittingConfig) (records : List SplitCheckpointRecord) (k : Nat)
    (hmax : 0 < cfg.maxRetries) (hk : k < records.length)
    (hprev : ∀ j, j < k → ∃ a, a < cfg.maxRetries ∧ behavior.createFails j a = false)
    (hfail : ∀ a, a < cfg.maxRetries → behavior.createFails k a = true) :
    (storeSplitRecords behavior cfg records).result
        = .error ("Failed to store split record after " ++ toString cfg.maxRetries ++
            " retries: " ++ behavior.createErrMsg k (cfg.maxRetries - 1))
      ∧ (∀ ids, (storeSplitRecords behavior cfg records).result ≠ .ok ids)
      ∧ (storeSplitRecords behavior cfg records).deletesIssued
          = (records.take k).map (fun r => r.recordId)
      ∧ (∃ pre, (storeSplitRecords behavior cfg records).sleeps
          = pre ++ (List.range' 1 (cfg.maxRetries - 1)).map (fun a => 2 ^ a * 100))
      ∧ (∀ n ∈ (storeSplitRecords behavior cfg records).attempts, n ≤ cfg.maxRetries)
      ∧ (∀ df, (storeSplitRecords
            { createFails := behavior.createFails
              createErrMsg := behavior.createErrMsg
              deleteFails := df } cfg records).result
            = (storeSplitRecords behavior cfg records).result
          ∧ (storeSplitRecords
              { createFails := behavior.createFails
                createErrMsg := behavior.createErrMsg
                deleteFails := df } cfg records).deletesIssued
            = (storeSplitRecords behavior cfg records).deletesIssued) := by
  have hspec := storeSplitRecordsGo_fail_spec behavior cfg.maxRetries hmax records k 0
    [] [] [] [] hk (fun j hj => by simpa using hprev j hj)
    (fun a ha => by simpa using hfail a ha)
  refine ⟨by simpa using hspec.1, ?_, by simpa using hspec.2.1, by simpa using hspec.2.2,
    storeSplitRecordsGo_attempts_le behavior cfg.maxRetries records 0 [] [] [] []
      (by intro n hn; cases hn), ?_⟩
  · intro ids h
    have := hspec.1
    rw [storeSplitRecords] at h
    rw [this] at h
    cases h
  · intro df
    exact storeSplitRecordsGo_deleteFails_indep
      { createFails := behavior.createFails, createErrMsg := behavior.createErrMsg
        deleteFails := df } behavior rfl rfl cfg.maxRetries records 0 [] [] [] []

theorem storeSplitRecords_rollback_spec_witness :
    (0 < sampleConfig.maxRetries
      ∧ 1 < ([sampleRecord "r0", sampleRecord "r1", sampleRecord "r2"] : List SplitCheckpointRecord).length
      ∧ (∀ a, a < sampleConfig.maxRetries → sampleStoreBehavior.createFails 1 a = true))
    ∧ (storeSplitRecords sampleStoreBehavior sampleConfig
        [sampleRecord "r0", sampleRecord "r1", sampleRecord "r2"]).deletesIssued = ["r0"] :=
  ⟨⟨by decide, by decide, fun a _ => rfl⟩, by
    rw [(storeSplitRecords_rollback_spec sampleStoreBehavior sampleConfig
      [sampleRecord "r0", sampleRecord "r1", sampleRecord "r2"] 1 (by decide) (by decide)
      (fun j hj => ⟨0, by decide, by
        simp only [sampleStoreBehavior, decide_eq_false_iff_not]
        omega⟩)
      (fun a _ => rfl)).2.2.1]
    decide⟩

theorem heapLookup_some_le_max (h : Heap) (a : Addr) (n : HNode)
    (hl : heapLookup h a = some n) : a ≤ heapMaxAddr h := by
  induction h with
  | nil => cases hl
  | cons p rest ih =>
    obtain ⟨b, nd⟩ := p
    rw [heapLookup] at hl
    show a ≤ max b (heapMaxAddr rest)
    by_cases hba : b = a
    · exact hba.symm.le.trans (Nat.le_max_left _ _)
    · rw [if_neg hba] at hl
      exact (ih hl).trans (Nat.le_max_right _ _)

theorem heapLookup_alloc (h : Heap) (nd : HNode) (a : Addr) (n : HNode)
    (hl : heapLookup h a = some n) : heapLookup (heapAlloc h nd).1 a = some n := by
  have hle := heapLookup_some_le_max h a n hl
  show heapLookup ((heapMaxAddr h + 1, nd) :: h) a = some n
  rw [heapLookup, if_neg (Nat.ne_of_gt (Nat.lt_succ_of_le hle))]
  exact hl

theorem heapLookup_set_ne (h : Heap) (b : Addr) (nd : HNode) (a : Addr) (hab : b ≠ a) :
    heapLookup (heapSet h b nd) a = heapLookup h a := by
  induction h with
  | nil => rfl
  | cons p rest ih =>
    obtain ⟨c, m⟩ := p
    simp only [heapSet, List.map_cons] at ih ⊢
    by_cases hcb : c = b
    · subst hcb
      rw [if_pos (show ((c, m) : Addr × HNode).1 = c from rfl)]
      rw [heapLookup, heapLookup, if_neg hab, if_neg hab]
      exact ih
    · rw [if_neg (show ¬ ((c, m) : Addr × HNode).1 = b from hcb)]
      rw [heapLookup, heapLookup]
      by_cases hca : c = a
      · rw [if_pos hca, if_pos hca]
      · rw [if_neg hca, if_neg hca]
        exact ih

/-- The heap channel loop only allocates: every pre-existing binding is
preserved. -/
theorem processChannelsHeap_preserve (entries : List (List Nat × HVal)) :
    ∀ (h : Heap) (a : Addr) (n : HNode), heapLookup h a = some n →
      heapLookup (processChannelsHeap h entries).1 a = some n := by
  induction entries with
  | nil => intro h a n hl; exact hl
  | cons e rest ih =>
    intro h a n hl
    obtain ⟨name, v⟩ := e
    rw [processChannelsHeap]
    cases hmf : messageChannelFields h v with
    | none => exact ih h a n hl
    | some chFs =>
      exact ih _ a n (heapLookup_alloc _ _ a n (heapLookup_alloc h _ a n hl))

/-- The per-channel clean map computed by `_splitMessageLevel`. -/
theorem processChannels_cleaned (cfg : CheckpointSplittingConfig)
    (threadId recordId timestamp : String) (checkpoint : Json) :
    ∀ (entries : List (List Nat × Json)) (pn : Nat),
      (processChannels cfg threadId recordId timestamp checkpoint entries pn).2.1
        = entries.map (fun e => (e.1, cleanChannel e.2)) := by
  intro entries
  induction entries with
  | nil => intro pn; rfl
  | cons e rest ih =>
    intro pn
    obtain ⟨name, cv⟩ := e
    rw [processChannels]
    cases hm : channelMessages cv with
    | none => simp [cleanChannel, hm, ih]
    | some ms => simp [cleanChannel, hm, ih]

/-- C9: `_splitMessageLevel` never mutates the caller's checkpoint.  In
the heap model every binding present before the call — the checkpoint
object, its `channel_values` object, every channel object and every
`messages` array — is unchanged afterwards (the method only allocates
fresh nodes and writes `channel_values` on its own copy); and the
primary is built from a per-channel copy map in which exactly the
message-bearing channels have an emptied `messages` array. -/
theorem splitMessageLevel_caller_immutable (h0 : Heap) (cpAddr : Addr)
    (cfg : CheckpointSplittingConfig) (threadId recordId timestamp : String)
    (checkpoint : Json) :
    (∀ a n, heapLookup h0 a = some n →
      heapLookup (splitMessageLevelHeap h0 cpAddr).1 a = some n)
    ∧ cleanedChannelValuesOf cfg threadId recordId timestamp checkpoint
        = (channelEntries checkpoint).map (fun e => (e.1, cleanChannel e.2)) := by
  constructor
  · intro a n hl
    have hle := heapLookup_some_le_max h0 a n hl
    simp only [splitMessageLevelHeap]
    rw [heapLookup_set_ne]
    · exact heapLookup_alloc _ _ a n
        (processChannelsHeap_preserve _ _ a n (heapLookup_alloc _ _ a n hl))
    · exact Nat.ne_of_gt (Nat.lt_succ_of_le hle)
  · exact processChannels_cleaned cfg threadId recordId timestamp checkpoint
      (channelEntries checkpoint) 1

theorem splitMessageLevel_caller_immutable_witness :
    heapLookup [(0, HNode.obj [])] 0 = some (HNode.obj [])
    ∧ heapLookup (splitMessageLevelHeap [(0, HNode.obj [])] 0).1 0 = some (HNode.obj []) :=
  ⟨rfl, (splitMessageLevel_caller_immutable [(0, HNode.obj [])] 0 sampleConfig
    "t" "r" "ts" Json.null).1 0 (HNode.obj []) rfl⟩

theorem mem_insertByKey (x y : SplitCheckpointRecord) :
    ∀ l : List SplitCheckpointRecord, y ∈ insertByKey x l ↔ y = x ∨ y ∈ l := by
  intro l
  induction l with
  | nil => simp [insertByKey]
  | cons z zs ih =>
    rw [insertByKey]
    by_cases hz : partNumberKey z < partNumberKey x
    · rw [if_pos hz]
      simp only [List.mem_cons, ih]
      tauto
    · rw [if_neg hz]
      simp only [List.mem_cons]

theorem mem_sortByPartNumber (y : SplitCheckpointRecord) :
    ∀ l : List SplitCheckpointRecord, y ∈ sortByPartNumber l ↔ y ∈ l := by
  intro l
  induction l with
  | nil => simp [sortByPartNumber]
  | cons z zs ih =>
    rw [sortByPartNumber, mem_insertByKey]
    simp only [List.mem_cons, ih]

theorem wantsChecksum_of_none (v : Bool) (p : SplitCheckpointRecord)
    (h : storedChecksum p = none) : wantsChecksum v p = false := by
  rw [wantsChecksum, h]
  simp

theorem wantsChecksum_false (p : SplitCheckpointRecord) : wantsChecksum false p = false := by
  rw [wantsChecksum]
  simp

theorem wantsChecksum_true_elim (v : Bool) (p : SplitCheckpointRecord)
    (h : wantsChecksum v p = true) : ∃ c, storedChecksum p = some c ∧ c ≠ [] := by
  rw [wantsChecksum] at h
  cases hc : storedChecksum p with
  | none =>
    rw [hc] at h
    simp at h
  | some c =>
    rw [hc] at h
    refine ⟨c, rfl, ?_⟩
    simp only [Bool.and_eq_true, Bool.not_eq_true'] at h
    intro hnil
    rw [hnil] at h
    simp at h

/-- When no part carries a checksum, the message-level accumulator is
independent of the validation flag. -/
theorem accumulateMessages_noChecksum :
    ∀ (parts : List SplitCheckpointRecord), (∀ p ∈ parts, storedChecksum p = none) →
      ∀ acc, accumulateMessages true parts acc = accumulateMessages false parts acc := by
  intro parts
  induction parts with
  | nil => intro _ acc; rfl
  | cons p rest ih =>
    intro h acc
    rw [accumulateMessages, accumulateMessages]
    by_cases hg : isAuxForMessages p = true
    · rw [if_pos hg, if_pos hg]
      cases hmsd : p.messageSplitData with
      | none => exact ih (fun q hq => h q (List.mem_cons_of_mem _ hq)) acc
      | some msd =>
        simp only []
        rw [wantsChecksum_of_none true p (h p (List.mem_cons_self _ _)),
          wantsChecksum_of_none false p (h p (List.mem_cons_self _ _))]
        rw [if_neg (by simp), if_neg (by simp)]
        cases hj : jsonParse msd.messagesData with
        | none => rfl
        | some j =>
          cases j with
          | arr ms => exact ih (fun q hq => h q (List.mem_cons_of_mem _ hq)) _
          | null => rfl
          | bool b => rfl
          | num n => rfl
          | str s => rfl
          | obj fs => rfl
    · rw [if_neg hg, if_neg hg]
      exact ih (fun q hq => h q (List.mem_cons_of_mem _ hq)) acc

/-- When no part carries a checksum, the content-level chunk collector
is independent of the validation flag. -/
theorem collectChunks_noChecksum :
    ∀ (parts : List SplitCheckpointRecord), (∀ p ∈ parts, storedChecksum p = none) →
      collectChunks true parts = collectChunks false parts := by
  intro parts
  induction parts with
  | nil => intro _; rfl
  | cons p rest ih =>
    intro h
    rw [collectChunks, collectChunks]
    cases hcsd : p.contentSplitData with
    | none => rfl
    | some csd =>
      simp only []
      by_cases hemp : csd.chunkData.isEmpty = true
      · rw [if_pos hemp, if_pos hemp]
      · rw [if_neg hemp, if_neg hemp,
          wantsChecksum_of_none true p (h p (List.mem_cons_self _ _)),
          wantsChecksum_of_none false p (h p (List.mem_cons_self _ _)),
          if_neg (by simp), if_neg (by simp),
          ih (fun q hq => h q (List.mem_cons_of_mem _ hq))]

/-- A checksum-mismatch failure in the message-level accumulator can
only come from a part that carries a non-empty checksum. -/
theorem accumulateMessages_mismatch_elim (v : Bool) :
    ∀ (parts : List SplitCheckpointRecord) (acc : List (List Nat × List Json)) (pn : Nat),
      accumulateMessages v parts acc = .error (.checksumMismatch pn) →
      ∃ p ∈ parts, ∃ c, storedChecksum p = some c ∧ c ≠ [] := by
  intro parts
  induction parts with
  | nil => intro acc pn h; cases h
  | cons p rest ih =>
    intro acc pn h
    rw [accumulateMessages] at h
    by_cases hg : isAuxForMessages p = true
    · rw [if_pos hg] at h
      cases hmsd : p.messageSplitData with
      | none =>
        rw [hmsd] at h
        obtain ⟨q, hq1, hq2⟩ := ih acc pn h
        exact ⟨q, List.mem_cons_of_mem _ hq1, hq2⟩
      | some msd =>
        rw [hmsd] at h
        simp only [] at h
        by_cases hw : wantsChecksum v p ∧ calculateChecksum msd.messagesData ≠ (storedChecksum p).getD []
        · obtain ⟨c, hc1, hc2⟩ := wantsChecksum_true_elim v p hw.1
          exact ⟨p, List.mem_cons_self _ _, c, hc1, hc2⟩
        · rw [if_neg hw] at h
          cases hj : jsonParse msd.messagesData with
          | none =>
            rw [hj] at h
            cases h
          | some j =>
            rw [hj] at h
            cases j with
            | arr ms =>
              obtain ⟨q, hq1, hq2⟩ := ih _ pn h
              exact ⟨q, List.mem_cons_of_mem _ hq1, hq2⟩
            | null => cases h
            | bool b => cases h
            | num n => cases h
            | str s => cases h
            | obj fs => cases h
    · rw [if_neg hg] at h
      obtain ⟨q, hq1, hq2⟩ := ih acc pn h
      exact ⟨q, List.mem_cons_of_mem _ hq1, hq2⟩

/-- A checksum-mismatch failure in the content-level collector can only
come from a part that carries a non-empty checksum. -/
theorem collectChunks_mismatch_elim (v : Bool) :
    ∀ (parts : List SplitCheckpointRecord) (pn : Nat),
      collectChunks v parts = .error (.checksumMismatch pn) →
      ∃ p ∈ parts, ∃ c, storedChecksum p = some c ∧ c ≠ [] := by
  intro parts
  induction parts with
  | nil => intro pn h; cases h
  | cons p rest ih =>
    intro pn h
    rw [collectChunks] at h
    cases hcsd : p.contentSplitData with
    | none =>
      rw [hcsd] at h
      cases h
    | some csd =>
      rw [hcsd] at h
      simp only [] at h
      by_cases hemp : csd.chunkData.isEmpty = true
      · rw [if_pos hemp] at h
        cases h
      · rw [if_neg hemp] at h
        by_cases hw : wantsChecksum v p ∧ calculateChecksum csd.chunkData ≠ (storedChecksum p).getD []
        · obtain ⟨c, hc1, hc2⟩ := wantsChecksum_true_elim v p hw.1
          exact ⟨p, List.mem_cons_self _ _, c, hc1, hc2⟩
        · rw [if_neg hw] at h
          cases hcc : collectChunks v rest with
          | error e =>
            rw [hcc] at h
            cases h
            obtain ⟨q, hq1, hq2⟩ := ih pn hcc
            exact ⟨q, List.mem_cons_of_mem _ hq1, hq2⟩
          | ok s =>
            rw [hcc] at h
            cases h

/-- With validation off, the message-level accumulator never reports a
checksum mismatch. -/
theorem accumulateMessages_false_no_mismatch :
    ∀ (parts : List SplitCheckpointRecord) (acc : List (List Nat × List Json)) (pn : Nat),
      accumulateMessages false parts acc ≠ .error (.checksumMismatch pn) := by
  intro parts
  induction parts with
  | nil => intro acc pn h; cases h
  | cons p rest ih =>
    intro acc pn h
    rw [accumulateMessages] at h
    by_cases hg : isAuxForMessages p = true
    · rw [if_pos hg] at h
      cases hmsd : p.messageSplitData with
      | none =>
        rw [hmsd] at h
        exact ih acc pn h
      | some msd =>
        rw [hmsd] at h
        simp only [] at h
        rw [wantsChecksum_false p, if_neg (by simp)] at h
        cases hj : jsonParse msd.messagesData with
        | none =>
          rw [hj] at h
          cases h
        | some j =>
          rw [hj] at h
          cases j with
          | arr ms => exact ih _ pn h
          | null => cases h
          | bool b => cases h
          | num n => cases h
          | str s => cases h
          | obj fs => cases h
    · rw [if_neg hg] at h
      exact ih acc pn h

/-- With validation off, the content-level collector never reports a
checksum mismatch. -/
theorem collectChunks_false_no_mismatch :
    ∀ (parts : List SplitCheckpointRecord) (pn : Nat),
      collectChunks false parts ≠ .error (.checksumMismatch pn) := by
  intro parts
  induction parts with
  | nil => intro pn h; cases h
  | cons p rest ih =>
    intro pn h
    rw [collectChunks] at h
    cases hcsd : p.contentSplitData with
    | none =>
      rw [hcsd] at h
      cases h
    | some csd =>
      rw [hcsd] at h
      simp only [] at h
      by_cases hemp : csd.chunkData.isEmpty = true
      · rw [if_pos hemp] at h
        cases h
      · rw [if_neg hemp, wantsChecksum_false p, if_neg (by simp)] at h
        cases hcc : collectChunks false rest with
        | error e =>
          rw [hcc] at h
          cases h
          exact ih pn hcc
        | ok s =>
          rw [hcc] at h
          cases h

/-- C10: a part whose `splitMetadata.checksum` is absent is accepted
without any integrity check, for both strategies — a shard set carrying
no checksums reassembles identically with validation on or off — and a
checksum-mismatch failure can only arise from a part that actually
carries a (non-empty) checksum; with validation off no mismatch is ever
reported. -/
theorem checksum_validation_conditional (parts : List SplitCheckpointRecord)
    (strategy : SplittingStrategy) :
    ((∀ p ∈ parts, storedChecksum p = none) →
      performReassembly parts strategy true = performReassembly parts strategy false)
    ∧ (∀ pn, performReassembly parts strategy true = .error (.checksumMismatch pn) →
        ∃ p ∈ parts, ∃ c, storedChecksum p = some c ∧ c ≠ [])
    ∧ (∀ pn, performReassembly parts strategy false ≠ .error (.checksumMismatch pn)) := by
  cases strategy with
  | message_level =>
    refine ⟨?_, ?_, ?_⟩
    · intro h
      show reassembleMessageLevel parts true = reassembleMessageLevel parts false
      rw [reassembleMessageLevel, reassembleMessageLevel]
      cases hfp : findPrimary parts with
      | none => rfl
      | some primaryPart =>
        simp only []
        cases hcp : primaryPart.checkpoint with
        | none => rfl
        | some cpBytes =>
          cases hmd : primaryPart.metadata with
          | none => rfl
          | some mdBytes =>
            simp only []
            by_cases hemp : (cpBytes.isEmpty || mdBytes.isEmpty) = true
            · rw [if_pos hemp, if_pos hemp]
            · rw [if_neg hemp, if_neg hemp]
              cases hpc : jsonParse cpBytes with
              | none => rfl
              | some checkpoint =>
                cases hpm : jsonParse mdBytes with
                | none => rfl
                | some metadata =>
                  simp only []
                  rw [accumulateMessages_noChecksum parts h []]
    · intro pn h
      replace h : reassembleMessageLevel parts true = .error (.checksumMismatch pn) := h
      rw [reassembleMessageLevel] at h
      cases hfp : findPrimary parts with
      | none => rw [hfp] at h; cases h
      | some primaryPart =>
        rw [hfp] at h
        simp only [] at h
        cases hcp : primaryPart.checkpoint with
        | none => rw [hcp] at h; cases h
        | some cpBytes =>
          rw [hcp] at h
          cases hmd : primaryPart.metadata with
          | none => rw [hmd] at h; cases h
          | some mdBytes =>
            rw [hmd] at h
            simp only [] at h
            by_cases hemp : (cpBytes.isEmpty || mdBytes.isEmpty) = true
            · rw [if_pos hemp] at h
              cases h
            · rw [if_neg hemp] at h
              cases hpc : jsonParse cpBytes with
              | none => rw [hpc] at h; cases h
              | some checkpoint =>
                rw [hpc] at h
                cases hpm : jsonParse mdBytes with
                | none => rw [hpm] at h; cases h
                | some metadata =>
                  rw [hpm] at h
                  simp only [] at h
                  cases hacc : accumulateMessages true parts [] with
                  | error e =>
                    rw [hacc] at h
                    cases h
                    exact accumulateMessages_mismatch_elim true parts [] pn hacc
                  | ok acc =>
                    rw [hacc] at h
                    cases h
    · intro pn h
      replace h : reassembleMessageLevel parts false = .error (.checksumMismatch pn) := h
      rw [reassembleMessageLevel] at h
      cases hfp : findPrimary parts with
      | none => rw [hfp] at h; cases h
      | some primaryPart =>
        rw [hfp] at h
        simp only [] at h
        cases hcp : primaryPart.checkpoint with
        | none => rw [hcp] at h; cases h
        | some cpBytes =>
          rw [hcp] at h
          cases hmd : primaryPart.metadata with
          | none => rw [hmd] at h; cases h
          | some mdBytes =>
            rw [hmd] at h
            simp only [] at h
            by_cases hemp : (cpBytes.isEmpty || mdBytes.isEmpty) = true
            · rw [if_pos hemp] at h
              cases h
            · rw [if_neg hemp] at h
              cases hpc : jsonParse cpBytes with
              | none => rw [hpc] at h; cases h
              | some checkpoint =>
                rw [hpc] at h
                cases hpm : jsonParse mdBytes with
                | none => rw [hpm] at h; cases h
                | some metadata =>
                  rw [hpm] at h
                  simp only [] at h
                  cases hacc : accumulateMessages false parts [] with
                  | error e =>
                    rw [hacc] at h
                    cases h
                    exact accumulateMessages_false_no_mismatch parts [] pn hacc
                  | ok acc =>
                    rw [hacc] at h
                    cases h
  | content_level =>
    refine ⟨?_, ?_, ?_⟩
    · intro h
      show reassembleContentLevel parts true = reassembleContentLevel parts false
      rw [reassembleContentLevel, reassembleContentLevel,
        collectChunks_noChecksum (sortByPartNumber parts)
          (fun q hq => h q ((mem_sortByPartNumber q parts).mp hq))]
    · intro pn h
      replace h : reassembleContentLevel parts true = .error (.checksumMismatch pn) := h
      rw [reassembleContentLevel] at h
      cases hcc : collectChunks true (sortByPartNumber parts) with
      | error e =>
        rw [hcc] at h
        cases h
        obtain ⟨q, hq1, hq2⟩ := collectChunks_mismatch_elim true (sortByPartNumber parts) pn hcc
        exact ⟨q, (mem_sortByPartNumber q parts).mp hq1, hq2⟩
      | ok s =>
        rw [hcc] at h
        simp only [] at h
        cases hbd : base64Decode s with
        | none => rw [hbd] at h; cases h
        | some decodedData =>
          rw [hbd] at h
          simp only [] at h
          cases hjp : jsonParse decodedData with
          | none => rw [hjp] at h; cases h
          | some j => rw [hjp] at h; cases h
    · intro pn h
      replace h : reassembleContentLevel parts false = .error (.checksumMismatch pn) := h
      rw [reassembleContentLevel] at h
      cases hcc : collectChunks false (sortByPartNumber parts) with
      | error e =>
        rw [hcc] at h
        cases h
        exact collectChunks_false_no_mismatch (sortByPartNumber parts) pn hcc
      | ok s =>
        rw [hcc] at h
        simp only [] at h
        cases hbd : base64Decode s with
        | none => rw [hbd] at h; cases h
        | some decodedData =>
          rw [hbd] at h
          simp only [] at h
          cases hjp : jsonParse decodedData with
          | none => rw [hjp] at h; cases h
          | some j => rw [hjp] at h; cases h

theorem checksum_validation_conditional_witness :
    (∀ p ∈ [sampleRecord "r"], storedChecksum p = none)
    ∧ performReassembly [sampleRecord "r"] SplittingStrategy.content_level true
      = performReassembly [sampleRecord "r"] SplittingStrategy.content_level false :=
  ⟨by decide, (checksum_validation_conditional [sampleRecord "r"] .content_level).1 (by decide)⟩

theorem generateSplitRecordId_ne (originalRecordId : String) (partNumber : Nat) (pfx : String) :
    generateSplitRecordId originalRecordId partNumber pfx ≠ originalRecordId := by
  intro h
  have hlen := congrArg String.length h
  rw [generateSplitRecordId] at hlen
  simp only [String.length_append] at hlen
  have h1 : ("#" : String).length = 1 := rfl
  have h2 : ("#part#" : String).length = 6 := rfl
  omega

theorem natDigitsAux_self_ne_nil (m : Nat) (hm : m ≠ 0) : natDigitsAux m m ≠ [] := by
  cases m with
  | zero => exact absurd rfl hm
  | succ k => simp [natDigitsAux]

theorem jsonStringify_ne_nil (v : Json) : jsonStringify v ≠ [] := by
  cases v with
  | null => simp [jsonStringify]
  | bool b => cases b <;> simp [jsonStringify]
  | num n =>
    show intRenderBytes n ≠ []
    rw [intRenderBytes]
    by_cases hn : n < 0
    · rw [if_pos hn]
      simp
    · rw [if_neg hn]
      rw [natRenderBytes]
      by_cases h0 : n.toNat = 0
      · rw [if_pos h0]
        simp
      · rw [if_neg h0]
        intro h
        exact natDigitsAux_self_ne_nil n.toNat h0 (by simpa using h)
  | str s => simp [jsonStringify]
  | arr es => simp [jsonStringify]
  | obj fs => simp [jsonStringify]

theorem base64Encode_ne_nil (bs : List Nat) (h : bs ≠ []) : base64Encode bs ≠ [] := by
  match bs with
  | [] => exact absurd rfl h
  | [b0] => simp [base64Encode]
  | [b0, b1] => simp [base64Encode]
  | b0 :: b1 :: b2 :: rest => simp [base64Encode]

theorem chunkString_ne_nil (s : List Nat) (k : Nat) (h : s ≠ []) :
    chunkString s k ≠ [] := by
  match s with
  | [] => exact absurd rfl h
  | b :: t =>
    show chunkStringAux (t.length + 1) (b :: t) k ≠ []
    rw [chunkStringAux]
    simp

theorem mkContentRecords_length (cfg : CheckpointSplittingConfig)
    (threadId recordId timestamp : String) (tp os : Nat) :
    ∀ (cs : List (List Nat)) (i : Nat),
      (mkContentRecords cfg threadId recordId timestamp tp os cs i).length = cs.length := by
  intro cs
  induction cs with
  | nil => intro i; rfl
  | cons c cs' ih =>
    intro i
    rw [mkContentRecords, List.length_cons, ih, List.length_cons]

theorem mkContentRecords_map_pn (cfg : CheckpointSplittingConfig)
    (threadId recordId timestamp : String) (tp os : Nat) :
    ∀ (cs : List (List Nat)) (i : Nat),
      (mkContentRecords cfg threadId recordId timestamp tp os cs i).map partNumberKey
        = List.range' (i + 1) cs.length := by
  intro cs
  induction cs with
  | nil => intro i; rfl
  | cons c cs' ih =>
    intro i
    rw [mkContentRecords, List.map_cons, ih, List.length_cons, List.range'_succ]
    rfl

theorem mkContentRecords_mem (cfg : CheckpointSplittingConfig)
    (threadId recordId timestamp : String) (tp os : Nat) :
    ∀ (cs : List (List Nat)) (i : Nat) (r : SplitCheckpointRecord),
      r ∈ mkContentRecords cfg threadId recordId timestamp tp os cs i →
      r.isSplit = true ∧ ∃ sm, r.splitMetadata = some sm
        ∧ sm.originalRecordId = recordId ∧ sm.totalParts = tp := by
  intro cs
  induction cs with
  | nil => intro i r hr; cases hr
  | cons c cs' ih =>
    intro i r hr
    rw [mkContentRecords] at hr
    rcases List.mem_cons.mp hr with h | h
    · subst h
      exact ⟨rfl, _, rfl, rfl, rfl⟩
    · exact ih (i + 1) r h

theorem mkContentRecords_count_zero (cfg : CheckpointSplittingConfig)
    (threadId recordId timestamp : String) (tp os : Nat) :
    ∀ (cs : List (List Nat)) (i : Nat), 1 ≤ i →
      (mkContentRecords cfg threadId recordId timestamp tp os cs i).countP
        (fun r => r.recordId == recordId && r.isSplit) = 0 := by
  intro cs
  induction cs with
  | nil => intro i _; rfl
  | cons c cs' ih =>
    intro i hi
    rw [mkContentRecords, List.countP_cons, ih (i + 1) (by omega)]
    have hne : ¬ (i = 0) := by omega
    simp only [if_neg hne]
    have : generateSplitRecordId recordId (i + 1) cfg.splitRecordPfx ≠ recordId :=
      generateSplitRecordId_ne recordId (i + 1) cfg.splitRecordPfx
    simp [this]

theorem mkMessageAuxRecords_length (cfg : CheckpointSplittingConfig)
    (threadId recordId timestamp : String) (checkpoint : Json) (name : List Nat)
    (msgs : List Json) (cc : Nat) :
    ∀ (cs : List (List Json)) (ci pn : Nat),
      (mkMessageAuxRecords cfg threadId recordId timestamp checkpoint name msgs cc cs ci pn).length
        = cs.length := by
  intro cs
  induction cs with
  | nil => intro ci pn; rfl
  | cons c cs' ih =>
    intro ci pn
    rw [mkMessageAuxRecords, List.length_cons, ih, List.length_cons]

theorem mkMessageAuxRecords_map_pn (cfg : CheckpointSplittingConfig)
    (threadId recordId timestamp : String) (checkpoint : Json) (name : List Nat)
    (msgs : List Json) (cc : Nat) :
    ∀ (cs : List (List Json)) (ci pn : Nat),
      (mkMessageAuxRecords cfg threadId recordId timestamp checkpoint name msgs cc cs ci pn).map
          partNumberKey
        = List.range' pn cs.length := by
  intro cs
  induction cs with
  | nil => intro ci pn; rfl
  | cons c cs' ih =>
    intro ci pn
    rw [mkMessageAuxRecords, List.map_cons, ih, List.length_cons, List.range'_succ]
    rfl

theorem mkMessageAuxRecords_mem (cfg : CheckpointSplittingConfig)
    (threadId recordId timestamp : String) (checkpoint : Json) (name : List Nat)
    (msgs : List Json) (cc : Nat) :
    ∀ (cs : List (List Json)) (ci pn : Nat) (r : SplitCheckpointRecord),
      r ∈ mkMessageAuxRecords cfg threadId recordId timestamp checkpoint name msgs cc cs ci pn →
      r.isSplit = true
      ∧ (∃ sm, r.splitMetadata = some sm ∧ sm.originalRecordId = recordId)
      ∧ (∃ p, r.recordId = generateSplitRecordId recordId p cfg.splitRecordPfx) := by
  intro cs
  induction cs with
  | nil => intro ci pn r hr; cases hr
  | cons c cs' ih =>
    intro ci pn r hr
    rw [mkMessageAuxRecords] at hr
    rcases List.mem_cons.mp hr with h | h
    · subst h
      exact ⟨rfl, ⟨_, rfl, rfl⟩, ⟨pn, rfl⟩⟩
    · exact ih (ci + 1) (pn + 1) r h

theorem processChannels_length_pn (cfg : CheckpointSplittingConfig)
    (threadId recordId timestamp : String) (checkpoint : Json) :
    ∀ (entries : List (List Nat × Json)) (pn : Nat),
      (processChannels cfg threadId recordId timestamp checkpoint entries pn).1.map partNumberKey
        = List.range' pn
            (processChannels cfg threadId recordId timestamp checkpoint entries pn).1.length := by
  intro entries
  induction entries with
  | nil => intro pn; rfl
  | cons e rest ih =>
    intro pn
    obtain ⟨name, cv⟩ := e
    rw [processChannels]
    cases hm : channelMessages cv with
    | none =>
      simp only []
      exact ih pn
    | some ms =>
      simp only [List.map_append, List.length_append]
      rw [ih, mkMessageAuxRecords_map_pn, mkMessageAuxRecords_length]
      have := List.range'_append pn
        (chunkMessages ms cfg.maxChunkSize).length
        (processChannels cfg threadId recordId timestamp checkpoint rest
          (pn + (chunkMessages ms cfg.maxChunkSize).length)).1.length 1
      rw [one_mul] at this
      rw [this, Nat.add_comm
        (processChannels cfg threadId recordId timestamp checkpoint rest
          (pn + (chunkMessages ms cfg.maxChunkSize).length)).1.length
        (chunkMessages ms cfg.maxChunkSize).length]

theorem processChannels_mem (cfg : CheckpointSplittingConfig)
    (threadId recordId timestamp : String) (checkpoint : Json) :
    ∀ (entries : List (List Nat × Json)) (pn : Nat) (r : SplitCheckpointRecord),
      r ∈ (processChannels cfg threadId recordId timestamp checkpoint entries pn).1 →
      r.isSplit = true
      ∧ (∃ sm, r.splitMetadata = some sm ∧ sm.originalRecordId = recordId)
      ∧ (∃ p, r.recordId = generateSplitRecordId recordId p cfg.splitRecordPfx) := by
  intro entries
  induction entries with
  | nil => intro pn r hr; cases hr
  | cons e rest ih =>
    intro pn r hr
    obtain ⟨name, cv⟩ := e
    rw [processChannels] at hr
    cases hm : channelMessages cv with
    | none =>
      rw [hm] at hr
      simp only [] at hr
      exact ih pn r hr
    | some ms =>
      rw [hm] at hr
      simp only [] at hr
      rcases List.mem_append.mp hr with h | h
      · exact mkMessageAuxRecords_mem cfg threadId recordId timestamp checkpoint name ms
          (chunkMessages ms cfg.maxChunkSize).length
          (chunkMessages ms cfg.maxChunkSize) 0 pn r h
      · exact ih _ r h

theorem partNumberKey_backfill (N os : Nat) (r : SplitCheckpointRecord) :
    partNumberKey (backfillSplitMetadata N os r) = partNumberKey r := by
  rw [backfillSplitMetadata, partNumberKey, partNumberKey]
  cases r.splitMetadata with
  | none => rfl
  | some sm => rfl

theorem countP_map_backfill (N os : Nat) (l : List SplitCheckpointRecord) (rid : String) :
    (l.map (backfillSplitMetadata N os)).countP (fun r => r.recordId == rid && r.isSplit)
      = l.countP (fun r => r.recordId == rid && r.isSplit) := by
  rw [List.countP_map]
  exact List.countP_congr (fun r _ => Iff.rfl)

/-- C2: shape of the shard set produced by `_performSplit`.  Exactly one
record keeps the original `recordId` (and is flagged split); every
shard's descriptor carries the same `originalRecordId` and a
`totalParts` equal to the number of shards; for `MESSAGE_LEVEL` the
part numbers are exactly `0, 1, …, totalParts-1` in order, with the
stripped primary (part 0, carrying the cleaned checkpoint payload)
first; for `CONTENT_LEVEL` they are exactly `1, …, totalParts` in
order, with the first content chunk at the original `recordId` and
part number 1. -/
theorem performSplit_shard_shape (cfg : CheckpointSplittingConfig)
    (threadId recordId : String) (checkpoint metadata : Json) (timestamp : String)
    (hk : 0 < cfg.maxChunkSize) :
    ((performSplit cfg threadId recordId checkpoint metadata timestamp).countP
        (fun r => r.recordId == recordId && r.isSplit) = 1)
    ∧ (∀ r ∈ performSplit cfg threadId recordId checkpoint metadata timestamp,
        r.isSplit = true ∧ ∃ sm, r.splitMetadata = some sm
          ∧ sm.originalRecordId = recordId
          ∧ sm.totalParts = (performSplit cfg threadId recordId checkpoint metadata timestamp).length)
    ∧ (cfg.strategy = .message_level →
        (performSplit cfg threadId recordId checkpoint metadata timestamp).map partNumberKey
            = List.range (performSplit cfg threadId recordId checkpoint metadata timestamp).length
        ∧ ∃ r0 rest, performSplit cfg threadId recordId checkpoint metadata timestamp = r0 :: rest
          ∧ r0.recordId = recordId ∧ partNumberKey r0 = 0
          ∧ r0.checkpoint = some (jsonStringify
              (primaryCheckpointOf cfg threadId recordId timestamp checkpoint))
          ∧ r0.metadata = some (jsonStringify metadata))
    ∧ (cfg.strategy = .content_level →
        (performSplit cfg threadId recordId checkpoint metadata timestamp).map partNumberKey
            = (List.range
                (performSplit cfg threadId recordId checkpoint metadata timestamp).length).map
                (fun x => x + 1)
        ∧ ∃ r0 rest, performSplit cfg threadId recordId checkpoint metadata timestamp = r0 :: rest
          ∧ r0.recordId = recordId ∧ partNumberKey r0 = 1
          ∧ ∃ c cs, chunkString (base64Encode (jsonStringify (pairObj checkpoint metadata)))
              cfg.maxChunkSize = c :: cs
            ∧ r0.contentSplitData = some { chunkData := c, encoding := "base64" }) := by
  cases hstrat : cfg.strategy with
  | message_level =>
    have hps : performSplit cfg threadId recordId checkpoint metadata timestamp
        = splitMessageLevel cfg threadId recordId checkpoint metadata timestamp := by
      rw [performSplit, hstrat]
    rw [hps]
    rw [splitMessageLevel]
    refine ⟨?_, ?_, ?_, ?_⟩
    · rw [countP_map_backfill, List.countP_cons,
        List.countP_eq_zero.mpr (fun r hr => ?_)]
      · simp
      · obtain ⟨_, _, ⟨p, hp⟩⟩ := processChannels_mem cfg threadId recordId timestamp
          checkpoint (channelEntries checkpoint) 1 r hr
        simp only [Bool.and_eq_true, beq_iff_eq]
        intro hcontra
        exact generateSplitRecordId_ne recordId p cfg.splitRecordPfx (hp ▸ hcontra.1)
    · intro r hr
      rw [List.length_map, List.length_cons]
      obtain ⟨x, hx, rfl⟩ := List.mem_map.mp hr
      rcases List.mem_cons.mp hx with h | h
      · subst h
        refine ⟨rfl, ?_⟩
        refine ⟨_, rfl, ?_, ?_⟩ <;> rfl
      · obtain ⟨hs, ⟨sm, hsm, hor⟩, _⟩ := processChannels_mem cfg threadId recordId timestamp
          checkpoint (channelEntries checkpoint) 1 x h
        refine ⟨hs, { sm with
            totalParts := (processChannels cfg threadId recordId timestamp checkpoint
              (channelEntries checkpoint) 1).1.length + 1,
            originalSize := (jsonStringify (primaryCheckpointOf cfg threadId recordId
              timestamp checkpoint) ++ jsonStringify metadata).length }, ?_, ?_, rfl⟩
        · rw [backfillSplitMetadata]
          simp only []
          rw [hsm]
          rfl
        · simpa using hor
    · intro _
      constructor
      · rw [List.map_map]
        have hcongr : (partNumberKey ∘ backfillSplitMetadata
            ((processChannels cfg threadId recordId timestamp checkpoint
              (channelEntries checkpoint) 1).1.length + 1)
            (jsonStringify (primaryCheckpointOf cfg threadId recordId timestamp checkpoint)
              ++ jsonStringify metadata).length)
            = partNumberKey := funext (fun r => partNumberKey_backfill _ _ r)
        rw [hcongr, List.map_cons,
          processChannels_length_pn cfg threadId recordId timestamp checkpoint
            (channelEntries checkpoint) 1,
          List.length_map, List.length_cons, List.range_eq_range', List.range'_succ]
        rfl
      · exact ⟨_, _, rfl, rfl, rfl, rfl, rfl⟩
    · intro hcontra
      cases hcontra
  | content_level =>
    have hps : performSplit cfg threadId recordId checkpoint metadata timestamp
        = splitContentLevel cfg threadId recordId checkpoint metadata timestamp := by
      rw [performSplit, hstrat]
    obtain ⟨c, cs, hchunks⟩ : ∃ c cs,
        chunkString (base64Encode (jsonStringify (pairObj checkpoint metadata)))
          cfg.maxChunkSize = c :: cs := by
      have h1 := chunkString_ne_nil
        (base64Encode (jsonStringify (pairObj checkpoint metadata))) cfg.maxChunkSize
        (base64Encode_ne_nil _ (jsonStringify_ne_nil _))
      cases hc : chunkString (base64Encode (jsonStringify (pairObj checkpoint metadata)))
          cfg.maxChunkSize with
      | nil => exact absurd hc h1
      | cons c cs => exact ⟨c, cs, rfl⟩
    have hsc : splitContentLevel cfg threadId recordId checkpoint metadata timestamp
        = mkContentRecords cfg threadId recordId timestamp (c :: cs).length
            (jsonStringify (pairObj checkpoint metadata)).length (c :: cs) 0 := by
      rw [splitContentLevel, hchunks]
    rw [hps, hsc]
    refine ⟨?_, ?_, ?_, ?_⟩
    · rw [mkContentRecords, List.countP_cons,
        mkContentRecords_count_zero cfg threadId recordId timestamp _ _ cs 1 le_rfl]
      simp
    · intro r hr
      rw [mkContentRecords_length]
      exact mkContentRecords_mem cfg threadId recordId timestamp _ _ (c :: cs) 0 r hr
    · intro hcontra
      cases hcontra
    · intro _
      refine ⟨?_, ?_⟩
      · rw [mkContentRecords_map_pn, mkContentRecords_length, List.range'_eq_map_range]
        exact List.map_congr_left (fun x _ => Nat.add_comm 1 x)
      · rw [mkContentRecords]
        exact ⟨_, _, rfl, rfl, rfl, c, cs, hchunks, rfl⟩

theorem performSplit_shard_shape_witness :
    0 < sampleConfig.maxChunkSize
    ∧ (performSplit sampleConfig "t" "r"
        (Json.obj [(kChannelValues,
          Json.obj [(strBytes "c", Json.obj [(kMessages, Json.arr [Json.null])])])])
        Json.null "ts").countP
        (fun r => r.recordId == "r" && r.isSplit) = 1 :=
  ⟨by decide, (performSplit_shard_shape sampleConfig "t" "r"
    (Json.obj [(kChannelValues,
      Json.obj [(strBytes "c", Json.obj [(kMessages, Json.arr [Json.null])])])])
    Json.null "ts" (by decide)).1⟩

theorem expectBytes_self : ∀ (p r : List Nat), expectBytes p (p ++ r) = some r
  | [], r => rfl
  | b :: p, r => by
    rw [List.cons_append, expectBytes, if_pos rfl]
    exact expectBytes_self p r

theorem hexVal_hexDigit_aux : ∀ x ∈ List.range 16, hexVal (hexDigit x) = some x := by
  decide

theorem hexVal_hexDigit (x : Nat) (h : x < 16) : hexVal (hexDigit x) = some x :=
  hexVal_hexDigit_aux x (List.mem_range.mpr h)

theorem b64Val_b64Char_aux : ∀ v ∈ List.range 64, b64Val (b64Char v) = some v := by
  decide

theorem b64Val_b64Char (v : Nat) (h : v < 64) : b64Val (b64Char v) = some v :=
  b64Val_b64Char_aux v (List.mem_range.mpr h)

theorem b64Char_ne_61 (i : Nat) : b64Char i ≠ 61 := by
  rw [b64Char]
  split_ifs <;> omega

theorem natDigitsAux_eq_digits : ∀ (fuel n : Nat), n ≤ fuel →
    natDigitsAux fuel n = Nat.digits 10 n
  | 0, n, h => by
    have hn : n = 0 := Nat.le_zero.mp h
    subst hn
    rw [Nat.digits_zero]
    rfl
  | fuel + 1, 0, _ => by
    rw [Nat.digits_zero]
    rfl
  | fuel + 1, m + 1, h => by
    rw [natDigitsAux, Nat.digits_def' (by norm_num : (1:ℕ) < 10) (Nat.succ_pos m)]
    rw [natDigitsAux_eq_digits fuel ((m + 1) / 10)
      (Nat.lt_succ_iff.mp (lt_of_lt_of_le (Nat.div_lt_self (Nat.succ_pos m) (by norm_num)) h))]

theorem natDigitsAux_lt_10 : ∀ (fuel n d : Nat), d ∈ natDigitsAux fuel n → d < 10
  | 0, _, d, h => absurd h (List.not_mem_nil d)
  | _ + 1, 0, d, h => absurd h (List.not_mem_nil d)
  | fuel + 1, n + 1, d, h => by
    rw [natDigitsAux] at h
    rcases List.mem_cons.mp h with h | h
    · subst h; exact Nat.mod_lt _ (by omega)
    · exact natDigitsAux_lt_10 fuel ((n + 1) / 10) d h

theorem digits_reverse_cons (n : Nat) (hn : n ≠ 0) :
    ∃ d ds, (Nat.digits 10 n).reverse = d :: ds
      ∧ d < 10 ∧ ∀ x ∈ ds, x < 10 := by
  cases hrev : (Nat.digits 10 n).reverse with
  | nil =>
    exact absurd (List.reverse_eq_nil_iff.mp hrev) (Nat.digits_ne_nil_iff_ne_zero.mpr hn)
  | cons d ds =>
    refine ⟨d, ds, rfl, ?_, ?_⟩
    · exact Nat.digits_lt_base (by norm_num)
        (List.mem_reverse.mp (hrev ▸ List.mem_cons_self d ds))
    · intro x hx
      exact Nat.digits_lt_base (by norm_num)
        (List.mem_reverse.mp (hrev ▸ List.mem_cons_of_mem d hx))

theorem foldr_digits : ∀ n : Nat, (Nat.digits 10 n).foldr (fun d a => a * 10 + d) 0 = n := by
  intro n
  induction n using Nat.strong_induction_on with
  | _ n ih =>
    cases n with
    | zero => rw [Nat.digits_zero]; rfl
    | succ m =>
      rw [Nat.digits_def' (by norm_num : (1:ℕ) < 10) (Nat.succ_pos m), List.foldr_cons,
        ih ((m + 1) / 10) (Nat.div_lt_self (Nat.succ_pos m) (by norm_num))]
      omega

theorem restOk_not_digit (b : Nat) (t : List Nat) (h : restOk (b :: t)) :
    ¬(48 ≤ b ∧ b ≤ 57) := by
  rcases h with h | h | h <;> omega

theorem parseNatAux_digits : ∀ (ds : List Nat), (∀ d ∈ ds, d < 10) →
    ∀ (acc : Nat) (rest : List Nat), restOk rest →
    parseNatAux (ds.map (fun d => 48 + d) ++ rest) acc
      = (ds.foldl (fun a d => a * 10 + d) acc, rest)
  | [], _, acc, rest, hrest => by
    cases rest with
    | nil => rfl
    | cons b t =>
      rw [List.map_nil, List.nil_append, parseNatAux, if_neg (restOk_not_digit b t hrest)]
      rfl
  | d :: ds, hd, acc, rest, hrest => by
    rw [List.map_cons, List.cons_append, parseNatAux,
      if_pos ⟨by omega, by have := hd d (List.mem_cons_self _ _); omega⟩]
    rw [show 48 + d - 48 = d from by omega]
    rw [parseNatAux_digits ds (fun x hx => hd x (List.mem_cons_of_mem _ hx)) (acc * 10 + d) rest hrest]
    rfl

theorem parseNatNum_render (n : Nat) (rest : List Nat) (hrest : restOk rest) :
    parseNatNum (natRenderBytes n ++ rest) = some (n, rest) := by
  by_cases hn : n = 0
  · subst hn
    rw [natRenderBytes, if_pos rfl, List.cons_append, List.nil_append, parseNatNum,
      if_pos (by omega)]
    have h0 := parseNatAux_digits [] (by intro d hd; cases hd) 0 rest hrest
    rw [List.map_nil, List.nil_append] at h0
    rw [show (48:Nat) - 48 = 0 from rfl, h0]
    rfl
  · rw [natRenderBytes, if_neg hn, natDigitsAux_eq_digits n n le_rfl, ← List.map_reverse]
    obtain ⟨d, ds, hds, hd10, hds10⟩ := digits_reverse_cons n hn
    rw [hds, List.map_cons, List.cons_append, parseNatNum, if_pos ⟨by omega, by omega⟩]
    rw [show 48 + d - 48 = d from by omega]
    rw [parseNatAux_digits ds hds10 d rest hrest]
    have hfold : ds.foldl (fun a x => a * 10 + x) d = n := by
      have h1 : (d :: ds).foldl (fun a x => a * 10 + x) 0 = n := by
        rw [← hds, List.foldl_reverse, foldr_digits]
      rw [List.foldl_cons] at h1
      simpa using h1
    rw [hfold]

theorem natRenderBytes_head (n : Nat) :
    ∃ b t, natRenderBytes n = b :: t ∧ 48 ≤ b ∧ b ≤ 57 := by
  by_cases hn : n = 0
  · subst hn
    exact ⟨48, [], rfl, by omega, by omega⟩
  · rw [natRenderBytes, if_neg hn, natDigitsAux_eq_digits n n le_rfl, ← List.map_reverse]
    obtain ⟨d, ds, hds, hd10, _⟩ := digits_reverse_cons n hn
    rw [hds, List.map_cons]
    exact ⟨48 + d, _, rfl, by omega, by omega⟩

theorem parseStrBody_escape : ∀ (s rest : List Nat),
    parseStrBody (escapeBytes s ++ 34 :: rest) = some (s, rest)
  | [], rest => by
    rw [escapeBytes, List.nil_append, parseStrBody.eq_def]
    simp
  | b :: bs, rest => by
    have hrec := parseStrBody_escape bs rest
    rw [escapeBytes, List.append_assoc, escapeByte]
    split_ifs with h34 h92 h8 h9 h10 h12 h13 hlt
    · subst h34
      rw [List.cons_append, List.cons_append, List.nil_append, parseStrBody.eq_def]
      simp [hrec]
    · subst h92
      rw [List.cons_append, List.cons_append, List.nil_append, parseStrBody.eq_def]
      simp [hrec]
    · subst h8
      rw [List.cons_append, List.cons_append, List.nil_append, parseStrBody.eq_def]
      simp [hrec]
    · subst h9
      rw [List.cons_append, List.cons_append, List.nil_append, parseStrBody.eq_def]
      simp [hrec]
    · subst h10
      rw [List.cons_append, List.cons_append, List.nil_append, parseStrBody.eq_def]
      simp [hrec]
    · subst h12
      rw [List.cons_append, List.cons_append, List.nil_append, parseStrBody.eq_def]
      simp [hrec]
    · subst h13
      rw [List.cons_append, List.cons_append, List.nil_append, parseStrBody.eq_def]
      simp [hrec]
    · have e1 := hexVal_hexDigit (b / 16) (by omega)
      have e2 := hexVal_hexDigit (b % 16) (by omega)
      rw [List.cons_append, List.cons_append, List.cons_append, List.cons_append,
        List.cons_append, List.cons_append, List.nil_append, parseStrBody.eq_def]
      simp [e1, e2, hrec]
      omega
    · rw [List.cons_append, List.nil_append, parseStrBody.eq_def]
      simp [h34, h92, hrec]

theorem jsonStringify_head_bound (v : Json) :
    ∃ b t, jsonStringify v = b :: t ∧ b ≠ 93 ∧ b ≠ 125 := by
  cases v with
  | null => exact ⟨110, _, rfl, by omega, by omega⟩
  | bool tf => cases tf with
    | true => exact ⟨116, _, rfl, by omega, by omega⟩
    | false => exact ⟨102, _, rfl, by omega, by omega⟩
  | num n =>
    rw [show jsonStringify (.num n) = intRenderBytes n from rfl, intRenderBytes]
    by_cases hneg : n < 0
    · rw [if_pos hneg]
      exact ⟨45, _, rfl, by omega, by omega⟩
    · rw [if_neg hneg]
      obtain ⟨b, t, hbt, hb1, hb2⟩ := natRenderBytes_head n.toNat
      exact ⟨b, t, hbt, by omega, by omega⟩
  | str s => exact ⟨34, _, rfl, by omega, by omega⟩
  | arr es => exact ⟨91, _, rfl, by omega, by omega⟩
  | obj fs => exact ⟨123, _, rfl, by omega, by omega⟩

theorem renderElems_cons (e : Json) (es : List Json) :
    ∃ t, renderElems (e :: es) = jsonStringify e ++ t := by
  cases es with
  | nil => exact ⟨[], (List.append_nil _).symm⟩
  | cons e2 es => exact ⟨_, rfl⟩

theorem renderFields_cons (k : List Nat) (v : Json) (fs : List (List Nat × Json)) :
    ∃ t, renderFields ((k, v) :: fs) = 34 :: t := by
  cases fs with
  | nil => exact ⟨_, rfl⟩
  | cons f2 fs => exact ⟨_, rfl⟩

theorem parse_render_roundtrip : ∀ fuel : Nat,
    (∀ (v : Json) (rest : List Nat), (jsonStringify v).length < fuel → restOk rest →
       parseJsonF fuel (jsonStringify v ++ rest) = some (v, rest))
    ∧ (∀ (es : List Json) (rest : List Nat), es ≠ [] →
         (renderElems es).length + 1 < fuel →
         parseElemsF fuel (renderElems es ++ 93 :: rest) = some (es, rest))
    ∧ (∀ (fs : List (List Nat × Json)) (rest : List Nat), fs ≠ [] →
         (renderFields fs).length + 1 < fuel →
         parseFieldsF fuel (renderFields fs ++ 125 :: rest) = some (fs, rest)) := by
  intro fuel
  induction fuel with
  | zero =>
    exact ⟨fun v rest h _ => absurd h (by omega), fun es rest _ h => absurd h (by omega),
      fun fs rest _ h => absurd h (by omega)⟩
  | succ fuel ih =>
    obtain ⟨ihJ, ihE, ihF⟩ := ih
    refine ⟨?_, ?_, ?_⟩
    · intro v rest hflen hrest
      cases v with
      | null =>
        rw [show jsonStringify .null ++ rest = 110 :: ([117, 108, 108] ++ rest) from rfl,
          parseJsonF.eq_def]
        simp
        exact expectBytes_self [117, 108, 108] rest
      | bool tf =>
        cases tf with
        | true =>
          rw [show jsonStringify (.bool true) ++ rest = 116 :: ([114, 117, 101] ++ rest) from rfl,
            parseJsonF.eq_def]
          simp
          exact expectBytes_self [114, 117, 101] rest
        | false =>
          rw [show jsonStringify (.bool false) ++ rest
              = 102 :: ([97, 108, 115, 101] ++ rest) from rfl, parseJsonF.eq_def]
          simp
          exact expectBytes_self [97, 108, 115, 101] rest
      | num n =>
        rw [show jsonStringify (.num n) = intRenderBytes n from rfl, intRenderBytes]
        by_cases hneg : n < 0
        · rw [if_pos hneg, List.cons_append, parseJsonF.eq_def]
          try simp only []
          rw [if_neg (by omega), if_neg (by omega), if_neg (by omega), if_neg (by omega),
            if_pos True.intro, parseNatNum_render n.natAbs rest hrest]
          show some (Json.num (-(n.natAbs : Int)), rest) = some (Json.num n, rest)
          rw [show -((n.natAbs : Int)) = n from by omega]
        · rw [if_neg hneg]
          obtain ⟨b, t, hbt, hb1, hb2⟩ := natRenderBytes_head n.toNat
          rw [hbt, List.cons_append, parseJsonF.eq_def]
          try simp only []
          rw [if_neg (by omega), if_neg (by omega), if_neg (by omega), if_neg (by omega),
            if_neg (by omega), if_neg (by omega), if_neg (by omega), if_pos ⟨hb1, hb2⟩]
          rw [show b :: (t ++ rest) = (b :: t) ++ rest from rfl, ← hbt,
            parseNatNum_render n.toNat rest hrest]
          show some (Json.num ((n.toNat : Nat) : Int), rest) = some (Json.num n, rest)
          rw [show ((n.toNat : Nat) : Int) = n from by omega]
      | str s =>
        have h1 : jsonStringify (.str s) ++ rest = 34 :: (escapeBytes s ++ 34 :: rest) := by
          rw [show jsonStringify (.str s) = 34 :: (escapeBytes s ++ [34]) from rfl]
          simp
        rw [h1, parseJsonF.eq_def]
        simp only []
        rw [if_neg (by omega), if_neg (by omega), if_neg (by omega),
          if_pos True.intro, parseStrBody_escape s rest]
        rfl
      | arr es =>
        cases es with
        | nil =>
          rw [show jsonStringify (.arr []) ++ rest = 91 :: 93 :: rest from rfl, parseJsonF.eq_def]
          try simp only []
          rw [if_neg (by omega), if_neg (by omega), if_neg (by omega), if_neg (by omega),
            if_neg (by omega), if_pos True.intro,
            if_pos (show ((93 : Nat) :: rest).head? = some 93 from rfl)]
          rfl
        | cons e es' =>
          have hlen' : (renderElems (e :: es')).length + 1 < fuel := by
            rw [show jsonStringify (.arr (e :: es'))
                = 91 :: (renderElems (e :: es') ++ [93]) from rfl] at hflen
            simp only [List.length_cons, List.length_append, List.length_singleton] at hflen
            omega
          have h1 : jsonStringify (.arr (e :: es')) ++ rest
              = 91 :: (renderElems (e :: es') ++ 93 :: rest) := by
            rw [show jsonStringify (.arr (e :: es'))
                = 91 :: (renderElems (e :: es') ++ [93]) from rfl]
            simp
          obtain ⟨t, ht⟩ := renderElems_cons e es'
          obtain ⟨hb, tb, hbe, h93, h125⟩ := jsonStringify_head_bound e
          rw [h1, parseJsonF.eq_def]
          try simp only []
          rw [if_neg (by omega), if_neg (by omega), if_neg (by omega), if_neg (by omega),
            if_neg (by omega), if_pos True.intro]
          rw [if_neg (by
            rw [ht, hbe]
            simp only [List.cons_append, List.head?_cons]
            intro hcontra
            exact h93 (Option.some.inj hcontra))]
          rw [ihE (e :: es') rest (by simp) hlen']
          rfl
      | obj fs =>
        cases fs with
        | nil =>
          rw [show jsonStringify (.obj []) ++ rest = 123 :: 125 :: rest from rfl, parseJsonF.eq_def]
          try simp only []
          rw [if_neg (by omega), if_neg (by omega), if_neg (by omega), if_neg (by omega),
            if_neg (by omega), if_neg (by omega), if_pos True.intro,
            if_pos (show ((125 : Nat) :: rest).head? = some 125 from rfl)]
          rfl
        | cons f fs' =>
          obtain ⟨k, v⟩ := f
          have hlen' : (renderFields ((k, v) :: fs')).length + 1 < fuel := by
            rw [show jsonStringify (.obj ((k, v) :: fs'))
                = 123 :: (renderFields ((k, v) :: fs') ++ [125]) from rfl] at hflen
            simp only [List.length_cons, List.length_append, List.length_singleton] at hflen
            omega
          have h1 : jsonStringify (.obj ((k, v) :: fs')) ++ rest
              = 123 :: (renderFields ((k, v) :: fs') ++ 125 :: rest) := by
            rw [show jsonStringify (.obj ((k, v) :: fs'))
                = 123 :: (renderFields ((k, v) :: fs') ++ [125]) from rfl]
            simp
          obtain ⟨t, ht⟩ := renderFields_cons k v fs'
          rw [h1, parseJsonF.eq_def]
          try simp only []
          rw [if_neg (by omega), if_neg (by omega), if_neg (by omega), if_neg (by omega),
            if_neg (by omega), if_neg (by omega), if_pos True.intro]
          rw [if_neg (by
            rw [ht]
            simp only [List.cons_append, List.head?_cons]
            intro hcontra
            exact absurd (Option.some.inj hcontra) (by omega))]
          rw [ihF ((k, v) :: fs') rest (by simp) hlen']
          rfl
    · intro es rest hne hlen
      cases es with
      | nil => exact absurd rfl hne
      | cons e es' =>
        cases es' with
        | nil =>
          have hlv : (jsonStringify e).length < fuel := by
            rw [show renderElems [e] = jsonStringify e from rfl] at hlen
            omega
          rw [show renderElems [e] = jsonStringify e from rfl, parseElemsF.eq_def]
          try simp only []
          rw [ihJ e (93 :: rest) hlv (Or.inr (Or.inl rfl))]
          try simp only []
          rw [if_pos (show ((93 : Nat) :: rest).head? = some 93 from rfl)]
          rfl
        | cons e2 es'' =>
          have hse : 1 ≤ (jsonStringify e).length :=
            List.length_pos.mpr (jsonStringify_ne_nil e)
          have hlens : (jsonStringify e).length + 1
              + (renderElems (e2 :: es'')).length + 1 < fuel + 1 := by
            rw [show renderElems (e :: e2 :: es'')
                = jsonStringify e ++ 44 :: renderElems (e2 :: es'') from rfl] at hlen
            simp only [List.length_append, List.length_cons] at hlen
            omega
          have h1 : renderElems (e :: e2 :: es'') ++ 93 :: rest
              = jsonStringify e ++ (44 :: (renderElems (e2 :: es'') ++ 93 :: rest)) := by
            rw [show renderElems (e :: e2 :: es'')
                = jsonStringify e ++ 44 :: renderElems (e2 :: es'') from rfl]
            simp
          rw [h1, parseElemsF.eq_def]
          try simp only []
          rw [ihJ e (44 :: (renderElems (e2 :: es'') ++ 93 :: rest)) (by omega) (Or.inl rfl)]
          try simp only []
          rw [if_neg (by simp),
            if_pos (show ((44 : Nat) :: (renderElems (e2 :: es'') ++ 93 :: rest)).head?
              = some 44 from rfl)]
          simp only [List.tail_cons]
          rw [ihE (e2 :: es'') rest (by simp) (by omega)]
    · intro fs rest hne hlen
      cases fs with
      | nil => exact absurd rfl hne
      | cons f fs' =>
        obtain ⟨k, v⟩ := f
        cases fs' with
        | nil =>
          have hlv : (jsonStringify v).length < fuel := by
            rw [show renderFields [(k, v)]
                = 34 :: (escapeBytes k ++ 34 :: 58 :: jsonStringify v) from rfl] at hlen
            simp only [List.length_cons, List.length_append] at hlen
            omega
          have h1 : renderFields [(k, v)] ++ 125 :: rest
              = 34 :: (escapeBytes k ++ 34 :: (58 :: (jsonStringify v ++ 125 :: rest))) := by
            rw [show renderFields [(k, v)]
                = 34 :: (escapeBytes k ++ 34 :: 58 :: jsonStringify v) from rfl]
            simp
          rw [h1, parseFieldsF.eq_def]
          try simp only []
          rw [parseStrBody_escape k (58 :: (jsonStringify v ++ 125 :: rest))]
          try simp only []
          rw [ihJ v (125 :: rest) hlv (Or.inr (Or.inr rfl))]
          try simp only []
          rw [if_pos (show ((125 : Nat) :: rest).head? = some 125 from rfl)]
          rfl
        | cons f2 fs'' =>
          have hse : 1 ≤ (jsonStringify v).length :=
            List.length_pos.mpr (jsonStringify_ne_nil v)
          have hlens : (escapeBytes k).length + (jsonStringify v).length
              + (renderFields (f2 :: fs'')).length + 5 < fuel + 1 := by
            rw [show renderFields ((k, v) :: f2 :: fs'')
                = (34 :: (escapeBytes k ++ 34 :: 58 :: jsonStringify v))
                  ++ 44 :: renderFields (f2 :: fs'') from rfl] at hlen
            simp only [List.length_cons, List.length_append] at hlen
            omega
          have h1 : renderFields ((k, v) :: f2 :: fs'') ++ 125 :: rest
              = 34 :: (escapeBytes k ++ 34 :: (58 :: (jsonStringify v
                  ++ 44 :: (renderFields (f2 :: fs'') ++ 125 :: rest)))) := by
            rw [show renderFields ((k, v) :: f2 :: fs'')
                = (34 :: (escapeBytes k ++ 34 :: 58 :: jsonStringify v))
                  ++ 44 :: renderFields (f2 :: fs'') from rfl]
            simp
          rw [h1, parseFieldsF.eq_def]
          try simp only []
          rw [parseStrBody_escape k
            (58 :: (jsonStringify v ++ 44 :: (renderFields (f2 :: fs'') ++ 125 :: rest)))]
          try simp only []
          rw [ihJ v (44 :: (renderFields (f2 :: fs'') ++ 125 :: rest)) (by omega) (Or.inl rfl)]
          try simp only []
          rw [if_neg (by simp),
            if_pos (show ((44 : Nat) :: (renderFields (f2 :: fs'') ++ 125 :: rest)).head?
              = some 44 from rfl)]
          simp only [List.tail_cons]
          rw [ihF (f2 :: fs'') rest (by simp) (by omega)]

theorem jsonParse_stringify (v : Json) : jsonParse (jsonStringify v) = some v := by
  rw [jsonParse]
  have h := (parse_render_roundtrip ((jsonStringify v).length + 1)).1 v []
    (Nat.lt_succ_self _) trivial
  rw [List.append_nil] at h
  rw [h]

theorem base64_roundtrip : ∀ (bs : List Nat), bytesWf bs = true →
    base64Decode (base64Encode bs) = some bs
  | [], _ => rfl
  | [b0], h => by
    have hb0 : b0 < 256 := by simpa [bytesWf] using h
    rw [show base64Encode [b0] = [b64Char (b0 / 4), b64Char (b0 % 4 * 16), 61, 61] from rfl,
      base64Decode.eq_def]
    simp only [b64Val_b64Char (b0 / 4) (by omega), b64Val_b64Char (b0 % 4 * 16) (by omega)]
    simp
    omega
  | [b0, b1], h => by
    have hb : b0 < 256 ∧ b1 < 256 := by simpa [bytesWf] using h
    rw [show base64Encode [b0, b1]
        = [b64Char (b0 / 4), b64Char (b0 % 4 * 16 + b1 / 16), b64Char (b1 % 16 * 4), 61]
        from rfl, base64Decode.eq_def]
    simp only [b64Val_b64Char (b0 / 4) (by omega),
      b64Val_b64Char (b0 % 4 * 16 + b1 / 16) (by omega),
      b64Val_b64Char (b1 % 16 * 4) (by omega)]
    rw [if_neg (b64Char_ne_61 _)]
    simp
    omega
  | b0 :: b1 :: b2 :: rest, h => by
    have hb : b0 < 256 ∧ b1 < 256 ∧ b2 < 256 ∧ bytesWf rest = true := by
      simpa [bytesWf] using h
    have hrec := base64_roundtrip rest hb.2.2.2
    rw [show base64Encode (b0 :: b1 :: b2 :: rest)
        = b64Char (b0 / 4) :: b64Char (b0 % 4 * 16 + b1 / 16) ::
          b64Char (b1 % 16 * 4 + b2 / 64) :: b64Char (b2 % 64) :: base64Encode rest
        from rfl, base64Decode.eq_def]
    simp only [b64Val_b64Char (b0 / 4) (by omega),
      b64Val_b64Char (b0 % 4 * 16 + b1 / 16) (by omega),
      b64Val_b64Char (b1 % 16 * 4 + b2 / 64) (by omega),
      b64Val_b64Char (b2 % 64) (by omega)]
    rw [if_neg (b64Char_ne_61 _), if_neg (b64Char_ne_61 _), hrec]
    simp
    omega

theorem bytesWf_append (a b : List Nat) :
    bytesWf (a ++ b) = (bytesWf a && bytesWf b) := by
  simp [bytesWf, List.all_append]

theorem bytesWf_escapeBytes : ∀ (s : List Nat), bytesWf s = true →
    bytesWf (escapeBytes s) = true
  | [], _ => rfl
  | b :: bs, h => by
    have hb : b < 256 ∧ bytesWf bs = true := by simpa [bytesWf] using h
    rw [escapeBytes, bytesWf_append, bytesWf_escapeBytes bs hb.2, Bool.and_true]
    rw [escapeByte]
    have hb1 := hb.1
    split_ifs <;> (simp [bytesWf, hexDigit]; try split_ifs) <;> omega

theorem bytesWf_natRenderBytes (n : Nat) : bytesWf (natRenderBytes n) = true := by
  rw [natRenderBytes]
  split_ifs
  · rfl
  · simp only [bytesWf, List.all_eq_true, List.mem_reverse, List.mem_map]
    intro b hb
    obtain ⟨d, hd, rfl⟩ := hb
    have := natDigitsAux_lt_10 n n d hd
    simp
    omega

theorem bytesWf_intRenderBytes (n : Int) : bytesWf (intRenderBytes n) = true := by
  rw [intRenderBytes]
  split_ifs
  · have h := bytesWf_natRenderBytes n.natAbs
    simp [bytesWf] at h ⊢
    exact h
  · exact bytesWf_natRenderBytes n.toNat

theorem bytesWf_cons_iff (b : Nat) (l : List Nat) :
    bytesWf (b :: l) = true ↔ b < 256 ∧ bytesWf l = true := by
  simp [bytesWf]

theorem bytesWf_append_iff (a b : List Nat) :
    bytesWf (a ++ b) = true ↔ bytesWf a = true ∧ bytesWf b = true := by
  simp [bytesWf, List.all_append]

mutual

theorem bytesWf_jsonStringify : ∀ (v : Json), jsonWf v = true →
    bytesWf (jsonStringify v) = true
  | .null, _ => by decide
  | .bool true, _ => by decide
  | .bool false, _ => by decide
  | .num n, _ => bytesWf_intRenderBytes n
  | .str s, h => by
    rw [show jsonStringify (.str s) = 34 :: (escapeBytes s ++ [34]) from rfl]
    exact (bytesWf_cons_iff _ _).mpr ⟨by omega,
      (bytesWf_append_iff _ _).mpr ⟨bytesWf_escapeBytes s h, by decide⟩⟩
  | .arr es, h => by
    rw [show jsonStringify (.arr es) = 91 :: (renderElems es ++ [93]) from rfl]
    exact (bytesWf_cons_iff _ _).mpr ⟨by omega,
      (bytesWf_append_iff _ _).mpr ⟨bytesWf_renderElems es h, by decide⟩⟩
  | .obj fs, h => by
    rw [show jsonStringify (.obj fs) = 123 :: (renderFields fs ++ [125]) from rfl]
    exact (bytesWf_cons_iff _ _).mpr ⟨by omega,
      (bytesWf_append_iff _ _).mpr ⟨bytesWf_renderFields fs h, by decide⟩⟩

theorem bytesWf_renderElems : ∀ (es : List Json), jsonWfList es = true →
    bytesWf (renderElems es) = true
  | [], _ => rfl
  | [e], h => by
    have hj : jsonWf e = true := by
      rw [jsonWfList, jsonWfList] at h
      simpa using h
    rw [show renderElems [e] = jsonStringify e from rfl]
    exact bytesWf_jsonStringify e hj
  | e :: e2 :: es, h => by
    have hsplit : jsonWf e = true ∧ jsonWfList (e2 :: es) = true := by
      rw [jsonWfList] at h
      simpa using h
    rw [show renderElems (e :: e2 :: es)
        = jsonStringify e ++ 44 :: renderElems (e2 :: es) from rfl]
    refine (bytesWf_append_iff _ _).mpr ⟨bytesWf_jsonStringify e hsplit.1, ?_⟩
    exact (bytesWf_cons_iff _ _).mpr ⟨by omega, bytesWf_renderElems (e2 :: es) hsplit.2⟩

theorem bytesWf_renderFields : ∀ (fs : List (List Nat × Json)), jsonWfFields fs = true →
    bytesWf (renderFields fs) = true
  | [], _ => rfl
  | [(k, v)], h => by
    have hkv : bytesWf k = true ∧ jsonWf v = true := by
      rw [jsonWfFields, jsonWfFields] at h
      simpa using h
    rw [show renderFields [(k, v)]
        = 34 :: (escapeBytes k ++ 34 :: 58 :: jsonStringify v) from rfl]
    refine (bytesWf_cons_iff _ _).mpr ⟨by omega, ?_⟩
    refine (bytesWf_append_iff _ _).mpr ⟨bytesWf_escapeBytes k hkv.1, ?_⟩
    refine (bytesWf_cons_iff _ _).mpr ⟨by omega, ?_⟩
    exact (bytesWf_cons_iff _ _).mpr ⟨by omega, bytesWf_jsonStringify v hkv.2⟩
  | (k, v) :: f2 :: fs, h => by
    have hkv : bytesWf k = true ∧ jsonWf v = true ∧ jsonWfFields (f2 :: fs) = true := by
      rw [jsonWfFields] at h
      simpa [and_assoc] using h
    rw [show renderFields ((k, v) :: f2 :: fs)
        = (34 :: (escapeBytes k ++ 34 :: 58 :: jsonStringify v))
          ++ 44 :: renderFields (f2 :: fs) from rfl]
    refine (bytesWf_append_iff _ _).mpr ⟨?_, ?_⟩
    · refine (bytesWf_cons_iff _ _).mpr ⟨by omega, ?_⟩
      refine (bytesWf_append_iff _ _).mpr ⟨bytesWf_escapeBytes k hkv.1, ?_⟩
      refine (bytesWf_cons_iff _ _).mpr ⟨by omega, ?_⟩
      exact (bytesWf_cons_iff _ _).mpr ⟨by omega, bytesWf_jsonStringify v hkv.2.1⟩
    · exact (bytesWf_cons_iff _ _).mpr ⟨by omega, bytesWf_renderFields (f2 :: fs) hkv.2.2⟩

end

theorem chunkStringAux_flatten : ∀ (fuel : Nat) (s : List Nat) (k : Nat), 0 < k →
    s.length ≤ fuel → (chunkStringAux fuel s k).flatten = s
  | 0, s, _, _, h => by
    have hs : s = [] := List.eq_nil_of_length_eq_zero (Nat.le_zero.mp h)
    subst hs
    rfl
  | fuel + 1, s, k, hk, h => by
    rw [chunkStringAux]
    by_cases hs : s.isEmpty
    · rw [if_pos hs]
      rw [List.isEmpty_iff] at hs
      subst hs
      rfl
    · rw [if_neg hs, List.flatten_cons]
      rw [List.isEmpty_iff] at hs
      have hlen : 1 ≤ s.length := List.length_pos.mpr hs
      rw [chunkStringAux_flatten fuel (s.drop k) k hk
        (by rw [List.length_drop]; omega)]
      exact List.take_append_drop k s

theorem chunkStringAux_mem_ne_nil : ∀ (fuel : Nat) (s : List Nat) (k : Nat)
    (c : List Nat), 0 < k → c ∈ chunkStringAux fuel s k → c ≠ []
  | 0, _, _, c, _, hc => absurd hc (List.not_mem_nil c)
  | fuel + 1, s, k, c, hk, hc => by
    rw [chunkStringAux] at hc
    by_cases hs : s.isEmpty
    · rw [if_pos hs] at hc
      exact absurd hc (List.not_mem_nil c)
    · rw [if_neg hs] at hc
      rw [List.isEmpty_iff] at hs
      rcases List.mem_cons.mp hc with h | h
      · subst h
        rw [Ne, List.take_eq_nil_iff]
        push_neg
        exact ⟨by omega, hs⟩
      · exact chunkStringAux_mem_ne_nil fuel (s.drop k) k c hk h

theorem insertByKey_lt_all (x : SplitCheckpointRecord) :
    ∀ (l : List SplitCheckpointRecord),
    (∀ y ∈ l, partNumberKey x < partNumberKey y) → insertByKey x l = x :: l
  | [], _ => rfl
  | y :: ys, h => by
    rw [insertByKey, if_neg (Nat.not_lt.mpr (Nat.le_of_lt (h y (List.mem_cons_self _ _))))]

theorem sortByPartNumber_sorted : ∀ (l : List SplitCheckpointRecord),
    l.Pairwise (fun a b => partNumberKey a < partNumberKey b) → sortByPartNumber l = l
  | [], _ => rfl
  | x :: xs, h => by
    have hp := List.pairwise_cons.mp h
    rw [sortByPartNumber, sortByPartNumber_sorted xs hp.2, insertByKey_lt_all x xs hp.1]

theorem pairwise_lt_range_aux : ∀ (n s : Nat), (List.range' s n).Pairwise (· < ·)
  | 0, _ => List.Pairwise.nil
  | n + 1, s => by
    rw [List.range'_succ]
    refine List.pairwise_cons.mpr ⟨?_, pairwise_lt_range_aux n (s + 1)⟩
    intro m hm
    have := (List.mem_range'_1.mp hm).1
    omega

theorem mkContentRecords_pairwise (cfg : CheckpointSplittingConfig)
    (threadId recordId timestamp : String) (tp os : Nat) (cs : List (List Nat)) (i : Nat) :
    (mkContentRecords cfg threadId recordId timestamp tp os cs i).Pairwise
      (fun a b => partNumberKey a < partNumberKey b) := by
  have hmap := mkContentRecords_map_pn cfg threadId recordId timestamp tp os cs i
  have hp : ((mkContentRecords cfg threadId recordId timestamp tp os cs i).map
      partNumberKey).Pairwise (· < ·) := by
    rw [hmap]
    exact pairwise_lt_range_aux cs.length (i + 1)
  exact List.pairwise_map.mp hp

theorem mkContentRecords_map_chunk (cfg : CheckpointSplittingConfig)
    (threadId recordId timestamp : String) (tp os : Nat) :
    ∀ (cs : List (List Nat)) (i : Nat),
      (mkContentRecords cfg threadId recordId timestamp tp os cs i).map chunkDataOf = cs
  | [], _ => rfl
  | c :: cs, i => by
    rw [mkContentRecords, List.map_cons,
      mkContentRecords_map_chunk cfg threadId recordId timestamp tp os cs (i + 1)]
    rfl

theorem collectChunks_mkContent (cfg : CheckpointSplittingConfig)
    (threadId recordId timestamp : String) (tp os : Nat) (validate : Bool) :
    ∀ (cs : List (List Nat)) (i : Nat), (∀ c ∈ cs, c ≠ []) →
    collectChunks validate (mkContentRecords cfg threadId recordId timestamp tp os cs i)
      = .ok cs.flatten
  | [], _, _ => rfl
  | c :: cs, i, hc => by
    rw [mkContentRecords, collectChunks]
    simp only []
    rw [if_neg (by
      simp only [List.isEmpty_iff]
      exact hc c (List.mem_cons_self _ _))]
    rw [if_neg (fun hcontra => hcontra.2 rfl)]
    rw [collectChunks_mkContent cfg threadId recordId timestamp tp os validate cs (i + 1)
      (fun x hx => hc x (List.mem_cons_of_mem _ hx))]
    rfl

/-- C1: content-level round trip.  For every well-formed
`(checkpoint, metadata)` pair and every positive `maxChunkSize`,
reassembling (with or without checksum validation) the complete shard
array produced by `_splitContentLevel` returns exactly the original
checkpoint and metadata — in particular their canonical serializations
are byte-equal to the originals — and the concatenation of the shards'
`chunkData` in part-number order Base64-decodes to the serialization
of `{checkpoint, metadata}`. -/
theorem contentLevel_roundtrip (cfg : CheckpointSplittingConfig)
    (threadId recordId timestamp : String) (checkpoint metadata : Json) (validate : Bool)
    (hk : 0 < cfg.maxChunkSize)
    (hcp : jsonWf checkpoint = true) (hmd : jsonWf metadata = true) :
    reassembleContentLevel (splitContentLevel cfg threadId recordId checkpoint metadata timestamp)
        validate = .ok (checkpoint, metadata)
    ∧ base64Decode (((sortByPartNumber (splitContentLevel cfg threadId recordId checkpoint
          metadata timestamp)).map chunkDataOf).flatten)
        = some (jsonStringify (pairObj checkpoint metadata)) := by
  have hwfpair : jsonWf (pairObj checkpoint metadata) = true := by
    show (bytesWf kCheckpoint && jsonWf checkpoint
      && (bytesWf kMetadata && jsonWf metadata && true)) = true
    rw [hcp, hmd]
    decide
  have hwf : bytesWf (jsonStringify (pairObj checkpoint metadata)) = true :=
    bytesWf_jsonStringify _ hwfpair
  have hchunks_ne : ∀ c ∈ chunkString (base64Encode (jsonStringify
      (pairObj checkpoint metadata))) cfg.maxChunkSize, c ≠ [] := by
    intro c hc
    exact chunkStringAux_mem_ne_nil _ _ _ c hk hc
  have hflat : (chunkString (base64Encode (jsonStringify (pairObj checkpoint metadata)))
      cfg.maxChunkSize).flatten
      = base64Encode (jsonStringify (pairObj checkpoint metadata)) :=
    chunkStringAux_flatten _ _ _ hk le_rfl
  have hsplit : splitContentLevel cfg threadId recordId checkpoint metadata timestamp
      = mkContentRecords cfg threadId recordId timestamp
          (chunkString (base64Encode (jsonStringify (pairObj checkpoint metadata)))
            cfg.maxChunkSize).length
          (jsonStringify (pairObj checkpoint metadata)).length
          (chunkString (base64Encode (jsonStringify (pairObj checkpoint metadata)))
            cfg.maxChunkSize) 0 := by
    simp only [splitContentLevel]
  have hsort : sortByPartNumber (mkContentRecords cfg threadId recordId timestamp
          (chunkString (base64Encode (jsonStringify (pairObj checkpoint metadata)))
            cfg.maxChunkSize).length
          (jsonStringify (pairObj checkpoint metadata)).length
          (chunkString (base64Encode (jsonStringify (pairObj checkpoint metadata)))
            cfg.maxChunkSize) 0)
      = mkContentRecords cfg threadId recordId timestamp
          (chunkString (base64Encode (jsonStringify (pairObj checkpoint metadata)))
            cfg.maxChunkSize).length
          (jsonStringify (pairObj checkpoint metadata)).length
          (chunkString (base64Encode (jsonStringify (pairObj checkpoint metadata)))
            cfg.maxChunkSize) 0 :=
    sortByPartNumber_sorted _ (mkContentRecords_pairwise cfg threadId recordId timestamp _ _ _ 0)
  have hcollect := collectChunks_mkContent cfg threadId recordId timestamp
    (chunkString (base64Encode (jsonStringify (pairObj checkpoint metadata)))
      cfg.maxChunkSize).length
    (jsonStringify (pairObj checkpoint metadata)).length validate
    (chunkString (base64Encode (jsonStringify (pairObj checkpoint metadata)))
      cfg.maxChunkSize) 0 hchunks_ne
  constructor
  · rw [hsplit]
    simp only [reassembleContentLevel]
    rw [hsort, hcollect, hflat]
    simp only []
    rw [base64_roundtrip _ hwf]
    simp only []
    rw [jsonParse_stringify (pairObj checkpoint metadata)]
    rfl
  · rw [hsplit, hsort, mkContentRecords_map_chunk, hflat, base64_roundtrip _ hwf]

theorem contentLevel_roundtrip_witness :
    0 < sampleConfig.maxChunkSize ∧ jsonWf Json.null = true ∧
    reassembleContentLevel (splitContentLevel sampleConfig "t" "r" Json.null Json.null "ts") true
      = .ok (Json.null, Json.null) :=
  ⟨by decide, by decide,
    (contentLevel_roundtrip sampleConfig "t" "r" "ts" Json.null Json.null true
      (by decide) (by decide) (by decide)).1⟩

end CheckpointSplitting
